import Mathlib

/-!
# AlgoPlonk verification development

A shallow embedding, in Lean 4, of the parts of the AlgoPlonk repository
(github.com/giuliop/AlgoPlonk) needed to settle the frozen claims about:

* the PLONK verifier code generator (`verifier/verifier.go` and the PuyaPy
  verifier templates `templateBN254.go`, `templateBLS12_381.go`, and the
  smart-contract BLS12-381 template),
* the trusted-setup loader (`setup/setup.go`),
* the top-level `Compile` facade (`algoplonk.go`).

Byte strings are modelled as `List Nat` with every entry a byte value.
External cryptographic primitives that the generated verifiers call through
AVM opcodes (`sha256`, `ec_add`, `ec_scalar_mul`, `ec_pairing_check`) are
modelled as oracle parameters, so a theorem quantifying over the oracles
expresses that a result is decided before (independently of) any hashing or
elliptic-curve arithmetic.
-/

set_option maxRecDepth 100000

namespace AlgoPlonk

/-! ## Byte strings -/

/-- Byte strings (as the AVM `Bytes` type): lists of byte values. -/
abbrev Bytes := List Nat

/-- `bzero n`: `n` zero bytes (AVM `bzero`). -/
def bzero (n : Nat) : Bytes := List.replicate n 0

/-- Big-endian fixed-width encoding of a natural number, `len` bytes
(most significant byte first). -/
def natToBE (len n : Nat) : Bytes :=
  match len with
  | 0 => []
  | l + 1 => natToBE l (n / 256) ++ [n % 256]

/-- Big-endian interpretation of a byte string as a natural number
(AVM `BigUInt.from_bytes` semantics). -/
def beToNat (bs : Bytes) : Nat := bs.foldl (fun acc b => acc * 256 + b) 0

/-- Minimal big-endian bytes of a natural number below `2 ^ 384`
(the AVM `BigUInt.bytes` property: big-endian, no leading zero bytes).
All values it is applied to in the verifier templates are below the
BLS12-381 base-field modulus, hence below `2 ^ 384`. -/
def bigBytes (n : Nat) : Bytes := (natToBE 48 n).dropWhile (fun b => b == 0)

theorem natToBE_length (len n : Nat) : (natToBE len n).length = len := by
  induction len generalizing n with
  | zero => rfl
  | succ l ih => simp [natToBE, ih]

theorem natToBE_take_one (len n : Nat) (h : 0 < len) :
    (natToBE len n).take 1 = [n / 256 ^ (len - 1) % 256] := by
  induction len generalizing n with
  | zero => omega
  | succ l ih =>
    cases l with
    | zero => simp [natToBE]
    | succ m =>
      have hl : 0 < m + 1 := Nat.succ_pos m
      have hlen : 1 ≤ (natToBE (m + 1) (n / 256)).length := by
        rw [natToBE_length]; omega
      have hsplit : (natToBE (m + 1 + 1) n).take 1 =
          (natToBE (m + 1) (n / 256)).take 1 := by
        simp only [natToBE]
        exact List.take_append_of_le_length hlen
      rw [hsplit, ih (n / 256) hl]
      have hpow : n / 256 / 256 ^ (m + 1 - 1) = n / 256 ^ (m + 1 + 1 - 1) := by
        rw [Nat.div_div_eq_div_mul]
        congr 1
        simp only [Nat.add_sub_cancel]
        rw [← Nat.pow_succ']
      rw [hpow]

theorem natToBE_zero (len : Nat) : natToBE len 0 = List.replicate len 0 := by
  induction len with
  | zero => rfl
  | succ l ih =>
    simp only [natToBE, Nat.zero_div, Nat.zero_mod, ih]
    exact (List.replicate_succ' l 0).symm

theorem natToBE_eq_zeros_iff (len n : Nat) (h : n < 256 ^ len) :
    (natToBE len n = List.replicate len 0 ↔ n = 0) := by
  induction len generalizing n with
  | zero =>
    simp only [natToBE, List.replicate]
    constructor
    · intro _
      have h1 : (256 : Nat) ^ 0 = 1 := rfl
      omega
    · intro _; trivial
  | succ l ih =>
    have hrep : List.replicate (l + 1) (0 : Nat) = List.replicate l 0 ++ [0] :=
      List.replicate_succ' l 0
    constructor
    · intro heq
      simp only [natToBE] at heq
      rw [hrep] at heq
      have hlen : (natToBE l (n / 256)).length = (List.replicate l (0 : Nat)).length := by
        rw [natToBE_length, List.length_replicate]
      have h2 := List.append_inj heq hlen
      have hlt : n / 256 < 256 ^ l := by
        rw [Nat.div_lt_iff_lt_mul (by norm_num)]
        calc n < 256 ^ (l + 1) := h
        _ = 256 ^ l * 256 := by rw [Nat.pow_succ]
      have hdiv : n / 256 = 0 := (ih (n / 256) hlt).mp h2.1
      have hmod : n % 256 = 0 := by simpa using h2.2
      omega
    · intro h0
      subst h0
      exact natToBE_zero (l + 1)

/-! ## Modular exponentiation (`expmod` subroutine of the templates)

Every template defines division-free modular inversion through binary
exponentiation:

    result = BigUInt(1)
    while exponent > 0:
        if exponent % 2 == 1:
            result = (result * base) % modulus
        exponent = exponent // 2
        base = (base * base) % modulus
    return result

`expmodLoop` is that loop with an explicit structural fuel; the exponent at
least halves every iteration, so fuel `exponent + 1` is never exhausted. -/

def expmodLoop (fuel result base exponent modulus : Nat) : Nat :=
  match fuel with
  | 0 => result
  | f + 1 =>
    if exponent = 0 then result
    else
      expmodLoop f
        (if exponent % 2 = 1 then (result * base) % modulus else result)
        ((base * base) % modulus) (exponent / 2) modulus

/-- The templates' `expmod base exponent modulus` subroutine. -/
def expmod (base exponent modulus : Nat) : Nat :=
  expmodLoop (exponent + 1) 1 base exponent modulus

theorem expmodLoop_spec (fuel : Nat) : ∀ result base e m : Nat, 1 < m →
    e < fuel → result < m →
    expmodLoop fuel result base e m = (result * base ^ e) % m := by
  induction fuel with
  | zero => intro r b e m _ hf _; omega
  | succ f ih =>
    intro r b e m hm hf hr
    by_cases he : e = 0
    · subst he
      simp [expmodLoop, Nat.mod_eq_of_lt hr]
    · have hfe : e / 2 < f := by omega
      simp only [expmodLoop, he, if_false]
      by_cases hodd : e % 2 = 1
      · rw [if_pos hodd]
        have hbody : b * (b * b) ^ (e / 2) = b ^ e := by
          rw [← pow_two, ← pow_mul, ← pow_succ']
          congr 1
          omega
        calc expmodLoop f ((r * b) % m) ((b * b) % m) (e / 2) m
            = ((r * b) % m * ((b * b) % m) ^ (e / 2)) % m :=
              ih ((r * b) % m) ((b * b) % m) (e / 2) m hm hfe
                (Nat.mod_lt _ (by omega))
          _ = (r * b * (b * b) ^ (e / 2)) % m :=
              Nat.ModEq.mul (Nat.mod_modEq _ _)
                (Nat.ModEq.pow _ (Nat.mod_modEq _ _))
          _ = (r * b ^ e) % m := by rw [mul_assoc, hbody]
      · rw [if_neg hodd]
        have hbody : (b * b) ^ (e / 2) = b ^ e := by
          rw [← pow_two, ← pow_mul]
          congr 1
          omega
        calc expmodLoop f r ((b * b) % m) (e / 2) m
            = (r * ((b * b) % m) ^ (e / 2)) % m :=
              ih r ((b * b) % m) (e / 2) m hm hfe hr
          _ = (r * (b * b) ^ (e / 2)) % m :=
              Nat.ModEq.mul (Nat.ModEq.refl r)
                (Nat.ModEq.pow _ (Nat.mod_modEq _ _))
          _ = (r * b ^ e) % m := by rw [hbody]

theorem expmod_spec (base e m : Nat) (hm : 1 < m) :
    expmod base e m = base ^ e % m ∨ (e = 0 ∧ expmod base e m = 1) := by
  by_cases he : e = 0
  · right
    subst he
    exact ⟨rfl, rfl⟩
  · left
    rw [expmod, expmodLoop_spec (e + 1) 1 base e m hm (by omega) hm, one_mul]

/-! ## Curve constants

The scalar-field ("curve order", `R_MOD`) and base-field ("field order",
`P_MOD`) moduli inlined at the top of each template. -/

/-- BLS12-381 scalar-field modulus (`R_MOD` in the BLS12-381 templates). -/
def rModBls : Nat :=
  52435875175126190479447740508185965837690552500527637822603658699938581184513

/-- BLS12-381 base-field modulus (`P_MOD` in the BLS12-381 templates). -/
def pModBls : Nat :=
  4002409555221667393417789825735904156556882819939007885332058136124031650490837864442687629129015664037894272559787

/-- BN254 scalar-field modulus (`R_MOD` in the BN254 template). -/
def rModBn : Nat :=
  21888242871839275222246405745257275088548364400416034343698204186575808495617

/-- BN254 base-field modulus (`P_MOD` in the BN254 template). -/
def pModBn : Nat :=
  21888242871839275222246405745257275088696311157297823662689037894645226208583

/-! ## BLS12-381 G1 points and their two byte representations (claim C1)

The code generator inlines every verifying-key G1 point twice for
BLS12-381 (`WritePythonCode`, `verifier.go`):

* `hex`: `p.RawBytes()` with the first byte overwritten by `0x00` when the
  point is the point at infinity — the representation used for
  elliptic-curve arithmetic (the true `(x, y)` coordinate encoding,
  the identity being `(0, 0)` i.e. 96 zero bytes);
* `hexEncoded`: `p.RawBytes()` unchanged — the representation hashed in
  the Fiat-Shamir transcript, which for the point at infinity carries the
  `0x80` sentinel in its first byte (the convention of the proving
  library, recorded in the repository's own comment "the first byte is
  0x80 to indicate infinity").

The generated verifier re-derives the same sentinel for proof-supplied
points with its `fs` subroutine: if the 96-byte string is all zeros, the
first bit is set to 1 (`setbit_bytes(p, 0, 1)`, AVM bit index 0 being the
most significant bit of the first byte). -/

/-- A BLS12-381 G1 point in affine coordinates: the point at infinity or a
coordinate pair. -/
inductive G1Bls where
  | inf : G1Bls
  | pt (x y : Nat) : G1Bls
deriving DecidableEq

/-- Membership in the BLS12-381 G1 curve `y^2 = x^3 + 4` over the base
field (the point at infinity is the additive identity). -/
def onCurve : G1Bls → Prop
  | G1Bls.inf => True
  | G1Bls.pt x y => x < pModBls ∧ y < pModBls ∧
      (y * y) % pModBls = (x * x * x + 4) % pModBls

instance (p : G1Bls) : Decidable (onCurve p) := by
  cases p with
  | inf => exact isTrue trivial
  | pt x y => exact inferInstanceAs (Decidable (_ ∧ _ ∧ _))

/-- The proving library's uncompressed ("raw") encoding of a G1 point, per
the convention the repository relies on: 48-byte big-endian `x` followed by
48-byte big-endian `y`, except that the point at infinity is encoded as 96
zero bytes with the `0x80` flag in the first byte. -/
def rawBytesG1 : G1Bls → Bytes
  | G1Bls.inf => 128 :: List.replicate 95 0
  | G1Bls.pt x y => natToBE 48 x ++ natToBE 48 y

/-- Overwrite the first byte of a byte string (Go `b[0] = c`). -/
def setByte0 (bs : Bytes) (c : Nat) : Bytes :=
  match bs with
  | [] => []
  | _ :: rest => c :: rest

/-- The generator's `hex` template function for BLS12-381: the raw bytes,
with the first byte forced to `0x00` when the point is the point at
infinity. This is the representation the generated code uses for
elliptic-curve arithmetic. -/
def hexPointBytes (p : G1Bls) : Bytes :=
  match p with
  | G1Bls.inf => setByte0 (rawBytesG1 p) 0
  | G1Bls.pt _ _ => rawBytesG1 p

/-- The generator's `hexEncoded` template function for BLS12-381: the raw
bytes unchanged. This is the representation hashed in the Fiat-Shamir
transcript. -/
def hexEncodedPointBytes (p : G1Bls) : Bytes := rawBytesG1 p

/-- AVM `setbit_bytes(p, 0, 1)`: set the most significant bit of the first
byte to 1. -/
def setbitBytes0 (bs : Bytes) : Bytes :=
  match bs with
  | [] => []
  | b :: rest => (b % 128 + 128) :: rest

/-- The generated BLS12-381 verifiers' `fs` subroutine: mask the leading
bit of a 96-byte point encoding with 1 exactly when it is all zeros (the
arithmetic encoding of the point at infinity), to match the proving
library's Fiat-Shamir encoding. -/
def fsMask (p : Bytes) : Bytes :=
  if p = bzero 96 then setbitBytes0 p else p

theorem bzero96_cons : bzero 96 = 0 :: List.replicate 95 0 := rfl

theorem hexPoint_pt_ne_zeros (x y : Nat) (hc : onCurve (G1Bls.pt x y)) :
    hexPointBytes (G1Bls.pt x y) ≠ bzero 96 := by
  intro heq
  obtain ⟨hx, hy, hcurve⟩ := hc
  have hx48 : x < 256 ^ 48 := by
    have hP : pModBls < 256 ^ 48 := by decide
    omega
  have hy48 : y < 256 ^ 48 := by
    have hP : pModBls < 256 ^ 48 := by decide
    omega
  have hsplit : List.replicate 96 (0 : Nat) =
      List.replicate 48 0 ++ List.replicate 48 0 := by
    rw [← List.replicate_add]
  simp only [hexPointBytes, rawBytesG1, bzero] at heq
  rw [hsplit] at heq
  have hlen : (natToBE 48 x).length = (List.replicate 48 (0 : Nat)).length := by
    rw [natToBE_length, List.length_replicate]
  have h2 := List.append_inj heq hlen
  have hx0 : x = 0 := (natToBE_eq_zeros_iff 48 x hx48).mp h2.1
  have hy0 : y = 0 := (natToBE_eq_zeros_iff 48 y hy48).mp h2.2
  subst hx0
  subst hy0
  simp only [Nat.zero_mul, Nat.mul_zero, Nat.zero_add, Nat.zero_mod] at hcurve
  have h4 : (4 : Nat) % pModBls = 4 := by decide
  omega

/-- C1. For every BLS12-381 curve point handled by the code generator or
the generated verifier, the Fiat-Shamir representation and the arithmetic
representation are two encodings of the one point: the proof-side `fs`
masking of the arithmetic encoding coincides with the generator's
`hexEncoded` Fiat-Shamir encoding; for the additive identity the
Fiat-Shamir encoding is the all-zero coordinate encoding with its leading
bit forced to the `0x80` sentinel while the arithmetic encoding is the
true unmasked `(0, 0)` encoding; and for every point that is not the
identity the two representations are equal, with the leading byte not the
`0x80` sentinel. -/
theorem fiatShamir_dual_representation (p : G1Bls) (hp : onCurve p) :
    fsMask (hexPointBytes p) = hexEncodedPointBytes p
    ∧ (p = G1Bls.inf →
        hexPointBytes p = bzero 96
        ∧ hexEncodedPointBytes p = setbitBytes0 (bzero 96))
    ∧ (p ≠ G1Bls.inf →
        hexPointBytes p = hexEncodedPointBytes p
        ∧ hexPointBytes p ≠ bzero 96
        ∧ (hexEncodedPointBytes p).take 1 ≠ [128]) := by
  cases p with
  | inf =>
    refine ⟨?_, fun _ => ⟨rfl, rfl⟩, fun h => absurd rfl h⟩
    rfl
  | pt x y =>
    have hne : hexPointBytes (G1Bls.pt x y) ≠ bzero 96 :=
      hexPoint_pt_ne_zeros x y hp
    obtain ⟨hx, hy, hcv⟩ := hp
    have hmask : fsMask (hexPointBytes (G1Bls.pt x y)) =
        hexPointBytes (G1Bls.pt x y) := by
      simp only [fsMask, bzero] at hne ⊢
      rw [if_neg]
      intro hcontra
      exact hne hcontra
    have htake : (hexEncodedPointBytes (G1Bls.pt x y)).take 1 ≠ [128] := by
      have hx48 : 0 < 48 := by norm_num
      have htk : (natToBE 48 x ++ natToBE 48 y).take 1 = (natToBE 48 x).take 1 := by
        apply List.take_append_of_le_length
        rw [natToBE_length]
        norm_num
      simp only [hexEncodedPointBytes, rawBytesG1]
      rw [htk, natToBE_take_one 48 x hx48]
      have hsmall : x / 256 ^ (48 - 1) % 256 < 128 := by
        have hdiv : x / 256 ^ 47 < 32 := by
          apply Nat.div_lt_of_lt_mul
          have hP : pModBls ≤ 32 * 256 ^ 47 := by decide
          omega
        have hle : x / 256 ^ (48 - 1) % 256 ≤ x / 256 ^ 47 := by
          simp only [show (48 : Nat) - 1 = 47 from rfl]
          exact Nat.mod_le _ _
        omega
      simp only [ne_eq, List.cons.injEq, and_true]
      omega
    refine ⟨?_, fun h => G1Bls.noConfusion h, fun _ => ⟨rfl, hne, htake⟩⟩
    rw [hmask]
    rfl

/-- Witness for C1 at the BLS12-381 G1 generator point. -/
theorem fiatShamir_dual_representation_witness :
    onCurve (G1Bls.pt
      3685416753713387016781088315183077757961620795782546409894578378688607592378376318836054947676345821548104185464507
      1339506544944476473020471379941921221584933875938349620426543736416511423956333506472724655353366534992391756441569)
    ∧ (fsMask (hexPointBytes (G1Bls.pt
      3685416753713387016781088315183077757961620795782546409894578378688607592378376318836054947676345821548104185464507
      1339506544944476473020471379941921221584933875938349620426543736416511423956333506472724655353366534992391756441569)) =
      hexEncodedPointBytes (G1Bls.pt
      3685416753713387016781088315183077757961620795782546409894578378688607592378376318836054947676345821548104185464507
      1339506544944476473020471379941921221584933875938349620426543736416511423956333506472724655353366534992391756441569)) :=
  ⟨by decide, (fiatShamir_dual_representation _ (by decide)).1⟩

/-! ## Oracles for the AVM cryptographic opcodes

The generated verifiers use the AVM opcodes `sha256`, `ec_add`,
`ec_scalar_mul` and `ec_pairing_check`. These are modelled as oracle
parameters of the embedded verifiers: a theorem whose conclusion holds for
every oracle states that the verifier's result at that point is decided
before (independently of) any hashing or elliptic-curve arithmetic. -/

/-- The `sha256` opcode, as an oracle. -/
def HashFn := Bytes → Bytes

/-- The elliptic-curve opcodes, as oracles. -/
structure ECOps where
  add : Bytes → Bytes → Bytes
  scalarMul : Bytes → Bytes → Bytes
  pairingCheck : Bytes → Bytes → Bool

/-- Result of a generated verifier: the returned `arc4.Bool`, or an aborted
execution from a failed `assert`. -/
inductive VRes where
  | ok (b : Bool) : VRes
  | assertFail : VRes
deriving DecidableEq

/-- A trivial hash oracle (used in witnesses; the theorems hold for every
oracle). -/
def hashZero : HashFn := fun _ => bzero 32

/-- A trivial elliptic-curve oracle (used in witnesses; the theorems hold
for every oracle). -/
def ecTrivial : ECOps := ⟨fun _ _ => [], fun _ _ => [], fun _ _ => false⟩

/-! ## Shared pieces of the verifier templates -/

/-- Indexing a proof's 32-byte elements (`proof[i]`). -/
def pchunk (proof : List Bytes) (i : Nat) : Bytes := proof.getD i []

/-- The templates' `curvemod` subroutine: interpret a byte string as a
big-endian integer and reduce it modulo the curve order. -/
def curvemod (q : Nat) (x : Bytes) : Nat := beToNat x % q

/-- Concatenation of the public-input byte elements
(`public_inputs_bytes` accumulation loop). -/
def concatB (l : List Bytes) : Bytes := l.foldl (fun a b => a ++ b) []

/-- Byte string of the ASCII literal used as the `gamma` transcript tag. -/
def litGamma : Bytes := [103, 97, 109, 109, 97]

/-- Byte string of the ASCII literal used as the `beta` transcript tag. -/
def litBeta : Bytes := [98, 101, 116, 97]

/-- Byte string of the ASCII literal used as the `alpha` transcript tag. -/
def litAlpha : Bytes := [97, 108, 112, 104, 97]

/-- Byte string of the ASCII literal used as the `zeta` transcript tag. -/
def litZeta : Bytes := [122, 101, 116, 97]

/-- Point negation on BLS12-381 (the `invert` subroutine of the BLS12-381
templates): split a 96-byte uncompressed point, negate `y` in the base
field, reassemble (`x.bytes` is minimal big-endian, the negated `y` is
padded to 48 bytes by `bzero(48) | neg_y.bytes`). -/
def invertBls (p : Bytes) : Bytes :=
  bigBytes (beToNat (p.take 48)) ++ natToBE 48 (pModBls - beToNat (p.drop 48))

/-- Point negation on BN254 (the `invert` subroutine of the BN254
template): split a 64-byte uncompressed point, negate `y` in the base
field, reassemble (`x.bytes` is minimal big-endian, the negated `y` is
padded to 32 bytes by `UInt256(neg_y).bytes`). -/
def invertBn (p : Bytes) : Bytes :=
  bigBytes (beToNat (p.take 32)) ++ natToBE 32 (pModBn - beToNat (p.drop 32))

/-! ### Public-input interpolation (shared by all templates)

The loops preparing, batch-inverting and scaling the Lagrange terms, lines
166–205 of `templateBLS12_381.go` (identically in the other templates). -/

/-- The "prepare to interpolate" loop: the `i`-th entry is
`(zeta + q - omega^i) % q`, built with the running power `w_`. -/
def batchDiffsGo (q zeta omega w : Nat) : Nat → List Nat
  | 0 => []
  | k + 1 => ((zeta + q - w) % q) :: batchDiffsGo q zeta omega ((w * omega) % q) k

/-- The batch of differences `zeta - omega^i` (mod `q`), one entry per
public input. -/
def batchDiffs (q zeta omega n : Nat) : List Nat := batchDiffsGo q zeta omega 1 n

/-- The forward running-product loop of the batch inversion: returns the
list of running products (the `temp` entries after the initial `1`) and
the final product `prev`. -/
def fwdProducts (q prev : Nat) : List Nat → List Nat × Nat
  | [] => ([], prev)
  | d :: rest =>
    let y := (d * prev) % q
    let r := fwdProducts q y rest
    (y :: r.1, r.2)

/-- The backward unwinding loop of the batch inversion, processing the
`(difference, running-product)` pairs from the right with the running
inverse `inv`: returns the overwritten batch and the final `inv`. -/
def unwind (q inv : Nat) : List (Nat × Nat) → List Nat × Nat
  | [] => ([], inv)
  | dt :: rest =>
    let r := unwind q inv rest
    (((r.2 * dt.2) % q) :: r.1, (r.2 * dt.1) % q)

/-- The batch after the single Fermat inversion and the backward
unwinding: entry `i` holds the modular inverse of `zeta - omega^i`. -/
def lagrangeInvertedBatch (q zeta omega n : Nat) : List Nat :=
  let ds := batchDiffs q zeta omega n
  let f := fwdProducts q 1 ds
  let inv0 := expmod f.2 (q - 2) q
  (unwind q inv0 (ds.zip (1 :: f.1))).1

/-- The scaling loop turning inverted differences into Lagrange basis
values: entry `i` becomes `omega^i * (batch[i] * zn % q) % q`. -/
def scaleBatch (q omega zn w : Nat) : List Nat → List Nat
  | [] => []
  | b :: rest => ((w * ((b * zn) % q)) % q) :: scaleBatch q omega zn ((w * omega) % q) rest

/-- The public-input accumulation loop: `PI = Σ batch[i] * publicInput[i]`
(mod `q`). -/
def piSum (q : Nat) (bs : List Nat) (pis : List Bytes) : Nat :=
  (bs.zip pis).foldl (fun acc bp => (acc + (bp.1 * beToNat bp.2) % q) % q) 0

/-- `Zz`, the vanishing polynomial `X^n - 1` evaluated at `zeta`. -/
def vanishingAt (q size zeta : Nat) : Nat := (expmod zeta size q + q - 1) % q

/-- `zn = Zz / n`, the vanishing evaluation times the inverse domain
size. -/
def znAt (q size sizeInv zeta : Nat) : Nat := (vanishingAt q size zeta * sizeInv) % q

/-- The Lagrange basis values at `zeta` for the public-input indices, as
computed by the generated verifiers (differences, batch inversion,
scaling). -/
def lagrangeBasisBatch (q size sizeInv omega n zeta : Nat) : List Nat :=
  scaleBatch q omega (znAt q size sizeInv zeta) 1 (lagrangeInvertedBatch q zeta omega n)

/-- `alpha2Lagrange = alpha^2 * (zeta^n - 1) / (n * (zeta - 1))` as
computed by the generated verifiers (lines 207–213 of
`templateBLS12_381.go`). -/
def alpha2LagrangeAt (q size sizeInv zeta alpha : Nat) : Nat :=
  let r1 := (zeta + q - 1) % q
  let r2 := expmod r1 (q - 2) q
  let r3 := (r2 * znAt q size sizeInv zeta) % q
  let r4 := (r3 * alpha) % q
  (r4 * alpha) % q

/-! ## Verifying-key constants as inlined in the generated verifiers -/

/-- The BLS12-381 verifying-key constants inlined by the generator into a
BLS12-381 verifier: scalars, the arithmetic (`hex`) encodings of the
verifying-key G1 points, their Fiat-Shamir (`hexEncoded`) encodings, and
the trusted-setup points for the pairing check. -/
structure VkBls where
  nbPublicInputs : Nat
  size : Nat
  sizeInv : Nat
  omega : Nat
  cosetShift : Nat
  ql : Bytes
  qr : Bytes
  qo : Bytes
  qm : Bytes
  qk : Bytes
  s1 : Bytes
  s2 : Bytes
  s3 : Bytes
  qlFs : Bytes
  qrFs : Bytes
  qoFs : Bytes
  qmFs : Bytes
  qkFs : Bytes
  s1Fs : Bytes
  s2Fs : Bytes
  s3Fs : Bytes
  g2srs0x0 : Nat
  g2srs0x1 : Nat
  g2srs0y0 : Nat
  g2srs0y1 : Nat
  g2srs1x0 : Nat
  g2srs1x1 : Nat
  g2srs1y0 : Nat
  g2srs1y1 : Nat
  g1srsX : Nat
  g1srsY : Nat
deriving DecidableEq

/-- The BN254 verifying-key constants inlined by the generator into the
BN254 verifier (BN254 has a single encoding per point). -/
structure VkBn where
  nbPublicInputs : Nat
  size : Nat
  sizeInv : Nat
  omega : Nat
  cosetShift : Nat
  ql : Bytes
  qr : Bytes
  qo : Bytes
  qm : Bytes
  qk : Bytes
  s1 : Bytes
  s2 : Bytes
  s3 : Bytes
  g2srs0x0 : Nat
  g2srs0x1 : Nat
  g2srs0y0 : Nat
  g2srs0y1 : Nat
  g2srs1x0 : Nat
  g2srs1x1 : Nat
  g2srs1y0 : Nat
  g2srs1y1 : Nat
  g1srsX : Nat
  g1srsY : Nat
deriving DecidableEq

/-! ## Proof layouts -/

/-- The proof fields read by the BLS12-381 explicit-quotient (Variant B)
verifier `tmplPuyaVerifierBls12_381` from its 35-element proof. -/
structure ProofBlsB where
  lcom : Bytes
  rcom : Bytes
  ocom : Bytes
  h0 : Bytes
  h1 : Bytes
  h2 : Bytes
  lAtZ : Bytes
  rAtZ : Bytes
  oAtZ : Bytes
  s1AtZ : Bytes
  s2AtZ : Bytes
  gp : Bytes
  gpAtZw : Bytes
  quotAtZ : Bytes
  linAtZ : Bytes
  batchOpeningAtZ : Bytes
  openingAtZw : Bytes
deriving DecidableEq

/-- The proof fields read by the Variant A verifiers (`tmplPuyaVerifierBn254`
with 24 elements and `tmplSmartContractVerifierBls12_381` with 33): the
same layout without the quotient and linearization evaluations. -/
structure ProofA where
  lcom : Bytes
  rcom : Bytes
  ocom : Bytes
  h0 : Bytes
  h1 : Bytes
  h2 : Bytes
  lAtZ : Bytes
  rAtZ : Bytes
  oAtZ : Bytes
  s1AtZ : Bytes
  s2AtZ : Bytes
  gp : Bytes
  gpAtZw : Bytes
  batchOpeningAtZ : Bytes
  openingAtZw : Bytes
deriving DecidableEq

/-- The "Read proof" section of `tmplPuyaVerifierBls12_381`
(`templateBLS12_381.go` lines 93–120): 3 chunks per 96-byte point, one per
scalar, 35 chunks in total. -/
def readProofBlsB (p : List Bytes) : ProofBlsB where
  lcom := pchunk p 0 ++ pchunk p 1 ++ pchunk p 2
  rcom := pchunk p 3 ++ pchunk p 4 ++ pchunk p 5
  ocom := pchunk p 6 ++ pchunk p 7 ++ pchunk p 8
  h0 := pchunk p 9 ++ pchunk p 10 ++ pchunk p 11
  h1 := pchunk p 12 ++ pchunk p 13 ++ pchunk p 14
  h2 := pchunk p 15 ++ pchunk p 16 ++ pchunk p 17
  lAtZ := pchunk p 18
  rAtZ := pchunk p 19
  oAtZ := pchunk p 20
  s1AtZ := pchunk p 21
  s2AtZ := pchunk p 22
  gp := pchunk p 23 ++ pchunk p 24 ++ pchunk p 25
  gpAtZw := pchunk p 26
  quotAtZ := pchunk p 27
  linAtZ := pchunk p 28
  batchOpeningAtZ := pchunk p 29 ++ pchunk p 30 ++ pchunk p 31
  openingAtZw := pchunk p 32 ++ pchunk p 33 ++ pchunk p 34

/-- The "Read proof" section of `tmplPuyaVerifierBn254`
(`templateBN254.go` lines 85–108): 2 chunks per 64-byte point, one per
scalar, 24 chunks in total. -/
def readProofBn254 (p : List Bytes) : ProofA where
  lcom := pchunk p 0 ++ pchunk p 1
  rcom := pchunk p 2 ++ pchunk p 3
  ocom := pchunk p 4 ++ pchunk p 5
  h0 := pchunk p 6 ++ pchunk p 7
  h1 := pchunk p 8 ++ pchunk p 9
  h2 := pchunk p 10 ++ pchunk p 11
  lAtZ := pchunk p 12
  rAtZ := pchunk p 13
  oAtZ := pchunk p 14
  s1AtZ := pchunk p 15
  s2AtZ := pchunk p 16
  gp := pchunk p 17 ++ pchunk p 18
  gpAtZw := pchunk p 19
  batchOpeningAtZ := pchunk p 20 ++ pchunk p 21
  openingAtZw := pchunk p 22 ++ pchunk p 23

/-- The "Read proof" section of `tmplSmartContractVerifierBls12_381`
(lines 96–122): 3 chunks per 96-byte point, one per scalar, 33 chunks in
total. -/
def readProofBlsA (p : List Bytes) : ProofA where
  lcom := pchunk p 0 ++ pchunk p 1 ++ pchunk p 2
  rcom := pchunk p 3 ++ pchunk p 4 ++ pchunk p 5
  ocom := pchunk p 6 ++ pchunk p 7 ++ pchunk p 8
  h0 := pchunk p 9 ++ pchunk p 10 ++ pchunk p 11
  h1 := pchunk p 12 ++ pchunk p 13 ++ pchunk p 14
  h2 := pchunk p 15 ++ pchunk p 16 ++ pchunk p 17
  lAtZ := pchunk p 18
  rAtZ := pchunk p 19
  oAtZ := pchunk p 20
  s1AtZ := pchunk p 21
  s2AtZ := pchunk p 22
  gp := pchunk p 23 ++ pchunk p 24 ++ pchunk p 25
  gpAtZw := pchunk p 26
  batchOpeningAtZ := pchunk p 27 ++ pchunk p 28 ++ pchunk p 29
  openingAtZw := pchunk p 30 ++ pchunk p 31 ++ pchunk p 32

/-! ## Field-membership checks (claim C2) -/

/-- The well-formedness check of `tmplPuyaVerifierBls12_381` (lines
122–132): some proof-supplied scalar is not strictly below the curve
order. -/
def scalarOutOfRangeB (q : Nat) (pr : ProofBlsB) : Prop :=
  q ≤ beToNat pr.lAtZ ∨ q ≤ beToNat pr.rAtZ ∨ q ≤ beToNat pr.oAtZ ∨
  q ≤ beToNat pr.s1AtZ ∨ q ≤ beToNat pr.s2AtZ ∨ q ≤ beToNat pr.gpAtZw ∨
  q ≤ beToNat pr.quotAtZ ∨ q ≤ beToNat pr.linAtZ

instance (q : Nat) (pr : ProofBlsB) : Decidable (scalarOutOfRangeB q pr) := by
  unfold scalarOutOfRangeB
  infer_instance

/-- The well-formedness check of the Variant A verifiers: some
proof-supplied scalar is not strictly below the curve order. -/
def scalarOutOfRangeA (q : Nat) (pr : ProofA) : Prop :=
  q ≤ beToNat pr.lAtZ ∨ q ≤ beToNat pr.rAtZ ∨ q ≤ beToNat pr.oAtZ ∨
  q ≤ beToNat pr.s1AtZ ∨ q ≤ beToNat pr.s2AtZ ∨ q ≤ beToNat pr.gpAtZw

instance (q : Nat) (pr : ProofA) : Decidable (scalarOutOfRangeA q pr) := by
  unfold scalarOutOfRangeA
  infer_instance

/-- The public-input well-formedness loop: some public input is not
strictly below the curve order. -/
def pubInputOutOfRange (q : Nat) (pis : List Bytes) : Bool :=
  pis.any (fun pb => decide (q ≤ beToNat pb))

/-! ## Fiat-Shamir challenges -/

/-- The Fiat-Shamir challenges `(gamma, beta, alpha, zeta)` of the
BLS12-381 verifiers (lines 144–159 of `templateBLS12_381.go`): the
verifying-key points enter through their `hexEncoded` (`_fs`) encodings
and the proof-supplied points through the `fs` masking subroutine. -/
def challengesBls (h : HashFn) (vk : VkBls) (lcom rcom ocom gp h0 h1 h2 : Bytes)
    (pis : List Bytes) : Nat × Nat × Nat × Nat :=
  let piBytes := concatB pis
  let gammaPre := h (litGamma ++ vk.s1Fs ++ vk.s2Fs ++ vk.s3Fs ++ vk.qlFs ++
    vk.qrFs ++ vk.qmFs ++ vk.qoFs ++ vk.qkFs ++ piBytes ++
    fsMask lcom ++ fsMask rcom ++ fsMask ocom)
  let betaPre := h (litBeta ++ gammaPre)
  let alphaPre := h (litAlpha ++ betaPre ++ fsMask gp)
  let zetaPre := h (litZeta ++ alphaPre ++ fsMask h0 ++ fsMask h1 ++ fsMask h2)
  (curvemod rModBls gammaPre, curvemod rModBls betaPre,
   curvemod rModBls alphaPre, curvemod rModBls zetaPre)

/-- The Fiat-Shamir challenges `(gamma, beta, alpha, zeta)` of the BN254
verifier (lines 128–144 of `templateBN254.go`): points enter through
their single encoding, unmasked. -/
def challengesBn (h : HashFn) (vk : VkBn) (lcom rcom ocom gp h0 h1 h2 : Bytes)
    (pis : List Bytes) : Nat × Nat × Nat × Nat :=
  let piBytes := concatB pis
  let gammaPre := h (litGamma ++ vk.s1 ++ vk.s2 ++ vk.s3 ++ vk.ql ++
    vk.qr ++ vk.qm ++ vk.qo ++ vk.qk ++ piBytes ++ lcom ++ rcom ++ ocom)
  let betaPre := h (litBeta ++ gammaPre)
  let alphaPre := h (litAlpha ++ betaPre ++ gp)
  let zetaPre := h (litZeta ++ alphaPre ++ h0 ++ h1 ++ h2)
  (curvemod rModBn gammaPre, curvemod rModBn betaPre,
   curvemod rModBn alphaPre, curvemod rModBn zetaPre)

/-! ## The quotient identity of the Variant B verifier (claim C3) -/

/-- The permutation-side product
`(s1(z)*beta + gamma + l(z)) * (s2(z)*beta + gamma + r(z)) * (o(z) + gamma)
 * alpha * z(w*zeta)` (mod `q`), lines 215–227 of
`templateBLS12_381.go` (and identically in the Variant A linearization). -/
def permutationTerm (q gamma beta alpha : Nat) (lAtZ rAtZ oAtZ s1AtZ s2AtZ gpAtZw : Bytes) : Nat :=
  let s1a := (beToNat s1AtZ * beta) % q
  let s1b := (s1a + gamma + beToNat lAtZ) % q
  let s2a := (beToNat s2AtZ * beta) % q
  let s2b := (s2a + gamma + beToNat rAtZ) % q
  let o := (beToNat oAtZ + gamma) % q
  let s1c := (s1b * s2b) % q
  let s1d := (s1c * o) % q
  let s1e := (s1d * alpha) % q
  (s1e * beToNat gpAtZw) % q

/-- The left-hand side of the Variant B quotient identity:
`r(zeta) + PI + permutationTerm - alpha^2*Lagrange` (mod `q`), line 228 of
`templateBLS12_381.go`. -/
def quotientLhsB (q : Nat) (vk : VkBls) (pr : ProofBlsB) (pis : List Bytes)
    (gamma beta alpha zeta : Nat) : Nat :=
  let pi := piSum q (lagrangeBasisBatch q vk.size vk.sizeInv vk.omega vk.nbPublicInputs zeta) pis
  let a2l := alpha2LagrangeAt q vk.size vk.sizeInv zeta alpha
  let s1f := permutationTerm q gamma beta alpha pr.lAtZ pr.rAtZ pr.oAtZ pr.s1AtZ pr.s2AtZ pr.gpAtZw
  (beToNat pr.linAtZ + pi + s1f + q - a2l) % q

/-- The right-hand side of the Variant B quotient identity:
`t(zeta) * Zz` (mod `q`), line 231 of `templateBLS12_381.go`. -/
def quotientRhsB (q : Nat) (vk : VkBls) (pr : ProofBlsB) (zeta : Nat) : Nat :=
  (beToNat pr.quotAtZ * vanishingAt q vk.size zeta) % q

/-! ## The Variant B BLS12-381 verifier (`tmplPuyaVerifierBls12_381`)

A line-by-line embedding of the `verify` method of
`templateBLS12_381.go`. Its proof argument is typed
`StaticArray[Bytes32, 35]`, so no dynamic length check appears: the
element count is fixed by the argument type and the body reads chunks
0 through 34. -/

def verifyPuyaBls12_381 (h : HashFn) (ec : ECOps) (vk : VkBls)
    (proof pis : List Bytes) : VRes :=
  let q := rModBls
  let pr := readProofBlsB proof
  if scalarOutOfRangeB q pr then .ok false
  else if pubInputOutOfRange q pis then .ok false
  else
    let ch := challengesBls h vk pr.lcom pr.rcom pr.ocom pr.gp pr.h0 pr.h1 pr.h2 pis
    let gamma := ch.1
    let beta := ch.2.1
    let alpha := ch.2.2.1
    let zeta := ch.2.2.2
    if quotientLhsB q vk pr pis gamma beta alpha zeta ≠ quotientRhsB q vk pr zeta
    then .ok false
    else
      let a2l := alpha2LagrangeAt q vk.size vk.sizeInv zeta alpha
      let n2 := vk.size + 2
      let zn2 := expmod zeta n2 q
      let foldedH1 := ec.scalarMul pr.h2 (bigBytes zn2)
      let foldedH2 := ec.add foldedH1 pr.h1
      let foldedH3 := ec.scalarMul foldedH2 (bigBytes zn2)
      let foldedH := ec.add foldedH3 pr.h0
      let u1 := (beToNat pr.gpAtZw * beta) % q
      let v1 := (beToNat pr.s1AtZ * beta) % q
      let v2 := (v1 + beToNat pr.lAtZ + gamma) % q
      let w1 := (beToNat pr.s2AtZ * beta) % q
      let w2 := (w1 + beToNat pr.rAtZ + gamma) % q
      let s1x := (u1 * v2) % q
      let s1y := (s1x * w2) % q
      let s1z := (s1y * alpha) % q
      let cosetSquare := (vk.cosetShift * vk.cosetShift) % q
      let betazeta := (beta * zeta) % q
      let u2 := (betazeta + beToNat pr.lAtZ + gamma) % q
      let v3 := (betazeta * vk.cosetShift) % q
      let v4 := (v3 + beToNat pr.rAtZ + gamma) % q
      let w3 := (betazeta * cosetSquare) % q
      let w4 := (w3 + beToNat pr.oAtZ + gamma) % q
      let s2x := (u2 * v4) % q
      let s2y := q - ((s2x * w4) % q)
      let s2z := (s2y * alpha + a2l) % q
      let lin1 := ec.scalarMul vk.ql pr.lAtZ
      let lin2 := ec.add lin1 (ec.scalarMul vk.qr pr.rAtZ)
      let lin3 := ec.add lin2 (ec.scalarMul vk.qo pr.oAtZ)
      let ab := (beToNat pr.lAtZ * beToNat pr.rAtZ) % q
      let lin4 := ec.add lin3 (ec.scalarMul vk.qm (bigBytes ab))
      let lin5 := ec.add lin4 vk.qk
      let lin6 := ec.add lin5 (ec.scalarMul vk.s3 (bigBytes s1z))
      let linCom := ec.add lin6 (ec.scalarMul pr.gp (bigBytes s2z))
      let rPre := h (litGamma ++ natToBE 32 zeta ++ foldedH ++ linCom ++
        fsMask pr.lcom ++ fsMask pr.rcom ++ fsMask pr.ocom ++ vk.s1Fs ++ vk.s2Fs ++
        pr.quotAtZ ++ pr.linAtZ ++ pr.lAtZ ++ pr.rAtZ ++ pr.oAtZ ++
        pr.s1AtZ ++ pr.s2AtZ ++ pr.gpAtZw)
      let r := curvemod q rPre
      let rAcc0 := r
      let digest1 := ec.add foldedH (ec.scalarMul linCom (bigBytes rAcc0))
      let claims0 := (beToNat pr.quotAtZ + beToNat pr.linAtZ * rAcc0) % q
      let rAcc1 := (rAcc0 * r) % q
      let digest2 := ec.add digest1 (ec.scalarMul pr.lcom (bigBytes rAcc1))
      let claims1 := (claims0 + beToNat pr.lAtZ * rAcc1) % q
      let rAcc2 := (rAcc1 * r) % q
      let digest3 := ec.add digest2 (ec.scalarMul pr.rcom (bigBytes rAcc2))
      let claims2 := (claims1 + beToNat pr.rAtZ * rAcc2) % q
      let rAcc3 := (rAcc2 * r) % q
      let digest4 := ec.add digest3 (ec.scalarMul pr.ocom (bigBytes rAcc3))
      let claims3 := (claims2 + beToNat pr.oAtZ * rAcc3) % q
      let rAcc4 := (rAcc3 * r) % q
      let digest5 := ec.add digest4 (ec.scalarMul vk.s1 (bigBytes rAcc4))
      let claims4 := (claims3 + beToNat pr.s1AtZ * rAcc4) % q
      let rAcc5 := (rAcc4 * r) % q
      let digest6 := ec.add digest5 (ec.scalarMul vk.s2 (bigBytes rAcc5))
      let claims5 := (claims4 + beToNat pr.s2AtZ * rAcc5) % q
      let rPre2 := h (digest6 ++ pr.batchOpeningAtZ ++ fsMask pr.gp ++
        pr.openingAtZw ++ natToBE 32 zeta ++ natToBE 32 r)
      let r2 := curvemod q rPre2
      let quotient1 := ec.add pr.batchOpeningAtZ (ec.scalarMul pr.openingAtZw (bigBytes r2))
      let digest7 := ec.add digest6 (ec.scalarMul pr.gp (bigBytes r2))
      let claims6 := (claims5 + beToNat pr.gpAtZw * r2) % q
      let g1srs := natToBE 48 vk.g1srsX ++ natToBE 48 vk.g1srsY
      let claimsCom := ec.scalarMul g1srs (bigBytes claims6)
      let digest8 := ec.add digest7 (invertBls claimsCom)
      let pointsQuotient0 := ec.scalarMul pr.batchOpeningAtZ (bigBytes zeta)
      let zetaOmega := (zeta * vk.omega) % q
      let r3 := (r2 * zetaOmega) % q
      let pointsQuotient := ec.add pointsQuotient0 (ec.scalarMul pr.openingAtZw (bigBytes r3))
      let digest9 := ec.add digest8 pointsQuotient
      let quotientF := invertBls quotient1
      let g2 := natToBE 48 vk.g2srs0x1 ++ natToBE 48 vk.g2srs0x0 ++
        natToBE 48 vk.g2srs0y1 ++ natToBE 48 vk.g2srs0y0 ++
        natToBE 48 vk.g2srs1x1 ++ natToBE 48 vk.g2srs1x0 ++
        natToBE 48 vk.g2srs1y1 ++ natToBE 48 vk.g2srs1y0
      .ok (ec.pairingCheck (digest9 ++ quotientF) g2)

/-! ## The Variant A linearized evaluation

Shared by the Variant A verifiers (`templateBN254.go` lines 200–215 and
`tmplSmartContractVerifierBls12_381` lines 215–230):
`linearized_poly_at_z = q - (permutationTerm + PI + q - alpha2Lagrange) % q`. -/

def linearizedAtZA (q : Nat) (pi a2l : Nat) (gamma beta alpha : Nat)
    (pr : ProofA) : Nat :=
  let s1f := permutationTerm q gamma beta alpha pr.lAtZ pr.rAtZ pr.oAtZ pr.s1AtZ pr.s2AtZ pr.gpAtZw
  q - ((s1f + pi + q - a2l) % q)

/-! ## The BN254 verifier (`tmplPuyaVerifierBn254`)

A line-by-line embedding of the `verify` method of `templateBN254.go`:
24-element proof asserted dynamically, Variant A identity handling (the
linearized evaluation is folded into the opening claims; the folded `H`
commitment is multiplied by the vanishing evaluation and negated). -/

def verifyPuyaBn254 (h : HashFn) (ec : ECOps) (vk : VkBn)
    (proof pis : List Bytes) : VRes :=
  let q := rModBn
  if proof.length ≠ 24 then .assertFail
  else if pis.length ≠ vk.nbPublicInputs then .assertFail
  else
    let pr := readProofBn254 proof
    if scalarOutOfRangeA q pr then .ok false
    else if pubInputOutOfRange q pis then .ok false
    else
      let ch := challengesBn h vk pr.lcom pr.rcom pr.ocom pr.gp pr.h0 pr.h1 pr.h2 pis
      let gamma := ch.1
      let beta := ch.2.1
      let alpha := ch.2.2.1
      let zeta := ch.2.2.2
      let pi := piSum q (lagrangeBasisBatch q vk.size vk.sizeInv vk.omega vk.nbPublicInputs zeta) pis
      let a2l := alpha2LagrangeAt q vk.size vk.sizeInv zeta alpha
      let linearized := linearizedAtZA q pi a2l gamma beta alpha pr
      let n2 := vk.size + 2
      let zn2 := expmod zeta n2 q
      let foldedH1 := ec.scalarMul pr.h2 (bigBytes zn2)
      let foldedH2 := ec.add foldedH1 pr.h1
      let foldedH3 := ec.scalarMul foldedH2 (bigBytes zn2)
      let foldedH4 := ec.add foldedH3 pr.h0
      let znminus1 := (expmod zeta vk.size q + q - 1) % q
      let foldedH5 := ec.scalarMul foldedH4 (bigBytes znminus1)
      let foldedH := invertBn foldedH5
      let u1 := (beToNat pr.gpAtZw * beta) % q
      let v1 := (beToNat pr.s1AtZ * beta) % q
      let v2 := (v1 + beToNat pr.lAtZ + gamma) % q
      let w1 := (beToNat pr.s2AtZ * beta) % q
      let w2 := (w1 + beToNat pr.rAtZ + gamma) % q
      let s1x := (u1 * v2) % q
      let s1y := (s1x * w2) % q
      let s1z := (s1y * alpha) % q
      let cosetSquare := (vk.cosetShift * vk.cosetShift) % q
      let betazeta := (beta * zeta) % q
      let u2 := (betazeta + beToNat pr.lAtZ + gamma) % q
      let v3 := (betazeta * vk.cosetShift) % q
      let v4 := (v3 + beToNat pr.rAtZ + gamma) % q
      let w3 := (betazeta * cosetSquare) % q
      let w4 := (w3 + beToNat pr.oAtZ + gamma) % q
      let s2x := (u2 * v4) % q
      let s2y := q - ((s2x * w4) % q)
      let s2z := (s2y * alpha + a2l) % q
      let lin1 := ec.scalarMul vk.ql pr.lAtZ
      let lin2 := ec.add lin1 (ec.scalarMul vk.qr pr.rAtZ)
      let lin3 := ec.add lin2 (ec.scalarMul vk.qo pr.oAtZ)
      let ab := (beToNat pr.lAtZ * beToNat pr.rAtZ) % q
      let lin4 := ec.add lin3 (ec.scalarMul vk.qm (bigBytes ab))
      let lin5 := ec.add lin4 vk.qk
      let lin6 := ec.add lin5 (ec.scalarMul vk.s3 (bigBytes s1z))
      let lin7 := ec.add lin6 (ec.scalarMul pr.gp (bigBytes s2z))
      let linCom := ec.add lin7 foldedH
      let linearizedBytes := natToBE 32 linearized
      let rPre := h (litGamma ++ natToBE 32 zeta ++ linCom ++
        pr.lcom ++ pr.rcom ++ pr.ocom ++ vk.s1 ++ vk.s2 ++ linearizedBytes ++
        pr.lAtZ ++ pr.rAtZ ++ pr.oAtZ ++ pr.s1AtZ ++ pr.s2AtZ ++ pr.gpAtZw)
      let r := curvemod q rPre
      let rAcc0 := r
      let claims0 := linearized
      let digest1 := ec.add linCom (ec.scalarMul pr.lcom (bigBytes rAcc0))
      let claims1 := (claims0 + beToNat pr.lAtZ * rAcc0) % q
      let rAcc1 := (rAcc0 * r) % q
      let digest2 := ec.add digest1 (ec.scalarMul pr.rcom (bigBytes rAcc1))
      let claims2 := (claims1 + beToNat pr.rAtZ * rAcc1) % q
      let rAcc2 := (rAcc1 * r) % q
      let digest3 := ec.add digest2 (ec.scalarMul pr.ocom (bigBytes rAcc2))
      let claims3 := (claims2 + beToNat pr.oAtZ * rAcc2) % q
      let rAcc3 := (rAcc2 * r) % q
      let digest4 := ec.add digest3 (ec.scalarMul vk.s1 (bigBytes rAcc3))
      let claims4 := (claims3 + beToNat pr.s1AtZ * rAcc3) % q
      let rAcc4 := (rAcc3 * r) % q
      let digest5 := ec.add digest4 (ec.scalarMul vk.s2 (bigBytes rAcc4))
      let claims5 := (claims4 + beToNat pr.s2AtZ * rAcc4) % q
      let rPre2 := h (digest5 ++ pr.batchOpeningAtZ ++ pr.gp ++
        pr.openingAtZw ++ natToBE 32 zeta ++ natToBE 32 r)
      let r2 := curvemod q rPre2
      let quotient1 := ec.add pr.batchOpeningAtZ (ec.scalarMul pr.openingAtZw (bigBytes r2))
      let digest6 := ec.add digest5 (ec.scalarMul pr.gp (bigBytes r2))
      let claims6 := (claims5 + beToNat pr.gpAtZw * r2) % q
      let g1srs := natToBE 32 vk.g1srsX ++ natToBE 32 vk.g1srsY
      let claimsCom := ec.scalarMul g1srs (bigBytes claims6)
      let digest7 := ec.add digest6 (invertBn claimsCom)
      let pointsQuotient0 := ec.scalarMul pr.batchOpeningAtZ (bigBytes zeta)
      let zetaOmega := (zeta * vk.omega) % q
      let r3 := (r2 * zetaOmega) % q
      let pointsQuotient := ec.add pointsQuotient0 (ec.scalarMul pr.openingAtZw (bigBytes r3))
      let digest8 := ec.add digest7 pointsQuotient
      let quotientF := invertBn quotient1
      let g2 := natToBE 32 vk.g2srs0x1 ++ natToBE 32 vk.g2srs0x0 ++
        natToBE 32 vk.g2srs0y1 ++ natToBE 32 vk.g2srs0y0 ++
        natToBE 32 vk.g2srs1x1 ++ natToBE 32 vk.g2srs1x0 ++
        natToBE 32 vk.g2srs1y1 ++ natToBE 32 vk.g2srs1y0
      .ok (ec.pairingCheck (digest8 ++ quotientF) g2)

/-! ## The Variant A BLS12-381 verifier (`tmplSmartContractVerifierBls12_381`)

A line-by-line embedding of the `verify` method of the smart-contract
BLS12-381 template: 33-element proof asserted dynamically, Variant A
identity handling, with the BLS12-381 Fiat-Shamir point masking. -/

def verifySmartContractBls12_381 (h : HashFn) (ec : ECOps) (vk : VkBls)
    (proof pis : List Bytes) : VRes :=
  let q := rModBls
  if proof.length ≠ 33 then .assertFail
  else if pis.length ≠ vk.nbPublicInputs then .assertFail
  else
    let pr := readProofBlsA proof
    if scalarOutOfRangeA q pr then .ok false
    else if pubInputOutOfRange q pis then .ok false
    else
      let ch := challengesBls h vk pr.lcom pr.rcom pr.ocom pr.gp pr.h0 pr.h1 pr.h2 pis
      let gamma := ch.1
      let beta := ch.2.1
      let alpha := ch.2.2.1
      let zeta := ch.2.2.2
      let pi := piSum q (lagrangeBasisBatch q vk.size vk.sizeInv vk.omega vk.nbPublicInputs zeta) pis
      let a2l := alpha2LagrangeAt q vk.size vk.sizeInv zeta alpha
      let linearized := linearizedAtZA q pi a2l gamma beta alpha pr
      let n2 := vk.size + 2
      let zn2 := expmod zeta n2 q
      let foldedH1 := ec.scalarMul pr.h2 (bigBytes zn2)
      let foldedH2 := ec.add foldedH1 pr.h1
      let foldedH3 := ec.scalarMul foldedH2 (bigBytes zn2)
      let foldedH4 := ec.add foldedH3 pr.h0
      let znminus1 := (expmod zeta vk.size q + q - 1) % q
      let foldedH5 := ec.scalarMul foldedH4 (bigBytes znminus1)
      let foldedH := invertBls foldedH5
      let u1 := (beToNat pr.gpAtZw * beta) % q
      let v1 := (beToNat pr.s1AtZ * beta) % q
      let v2 := (v1 + beToNat pr.lAtZ + gamma) % q
      let w1 := (beToNat pr.s2AtZ * beta) % q
      let w2 := (w1 + beToNat pr.rAtZ + gamma) % q
      let s1x := (u1 * v2) % q
      let s1y := (s1x * w2) % q
      let s1z := (s1y * alpha) % q
      let cosetSquare := (vk.cosetShift * vk.cosetShift) % q
      let betazeta := (beta * zeta) % q
      let u2 := (betazeta + beToNat pr.lAtZ + gamma) % q
      let v3 := (betazeta * vk.cosetShift) % q
      let v4 := (v3 + beToNat pr.rAtZ + gamma) % q
      let w3 := (betazeta * cosetSquare) % q
      let w4 := (w3 + beToNat pr.oAtZ + gamma) % q
      let s2x := (u2 * v4) % q
      let s2y := q - ((s2x * w4) % q)
      let s2z := (s2y * alpha + a2l) % q
      let lin1 := ec.scalarMul vk.ql pr.lAtZ
      let lin2 := ec.add lin1 (ec.scalarMul vk.qr pr.rAtZ)
      let lin3 := ec.add lin2 (ec.scalarMul vk.qo pr.oAtZ)
      let ab := (beToNat pr.lAtZ * beToNat pr.rAtZ) % q
      let lin4 := ec.add lin3 (ec.scalarMul vk.qm (bigBytes ab))
      let lin5 := ec.add lin4 vk.qk
      let lin6 := ec.add lin5 (ec.scalarMul vk.s3 (bigBytes s1z))
      let lin7 := ec.add lin6 (ec.scalarMul pr.gp (bigBytes s2z))
      let linCom := ec.add lin7 foldedH
      let linearizedBytes := natToBE 32 linearized
      let rPre := h (litGamma ++ natToBE 32 zeta ++ linCom ++
        fsMask pr.lcom ++ fsMask pr.rcom ++ fsMask pr.ocom ++ vk.s1Fs ++ vk.s2Fs ++
        linearizedBytes ++ pr.lAtZ ++ pr.rAtZ ++ pr.oAtZ ++
        pr.s1AtZ ++ pr.s2AtZ ++ pr.gpAtZw)
      let r := curvemod q rPre
      let rAcc0 := r
      let claims0 := linearized
      let digest1 := ec.add linCom (ec.scalarMul pr.lcom (bigBytes rAcc0))
      let claims1 := (claims0 + beToNat pr.lAtZ * rAcc0) % q
      let rAcc1 := (rAcc0 * r) % q
      let digest2 := ec.add digest1 (ec.scalarMul pr.rcom (bigBytes rAcc1))
      let claims2 := (claims1 + beToNat pr.rAtZ * rAcc1) % q
      let rAcc2 := (rAcc1 * r) % q
      let digest3 := ec.add digest2 (ec.scalarMul pr.ocom (bigBytes rAcc2))
      let claims3 := (claims2 + beToNat pr.oAtZ * rAcc2) % q
      let rAcc3 := (rAcc2 * r) % q
      let digest4 := ec.add digest3 (ec.scalarMul vk.s1 (bigBytes rAcc3))
      let claims4 := (claims3 + beToNat pr.s1AtZ * rAcc3) % q
      let rAcc4 := (rAcc3 * r) % q
      let digest5 := ec.add digest4 (ec.scalarMul vk.s2 (bigBytes rAcc4))
      let claims5 := (claims4 + beToNat pr.s2AtZ * rAcc4) % q
      let rPre2 := h (digest5 ++ pr.batchOpeningAtZ ++ fsMask pr.gp ++
        pr.openingAtZw ++ natToBE 32 zeta ++ natToBE 32 r)
      let r2 := curvemod q rPre2
      let quotient1 := ec.add pr.batchOpeningAtZ (ec.scalarMul pr.openingAtZw (bigBytes r2))
      let digest6 := ec.add digest5 (ec.scalarMul pr.gp (bigBytes r2))
      let claims6 := (claims5 + beToNat pr.gpAtZw * r2) % q
      let g1srs := natToBE 48 vk.g1srsX ++ natToBE 48 vk.g1srsY
      let claimsCom := ec.scalarMul g1srs (bigBytes claims6)
      let digest7 := ec.add digest6 (invertBls claimsCom)
      let pointsQuotient0 := ec.scalarMul pr.batchOpeningAtZ (bigBytes zeta)
      let zetaOmega := (zeta * vk.omega) % q
      let r3 := (r2 * zetaOmega) % q
      let pointsQuotient := ec.add pointsQuotient0 (ec.scalarMul pr.openingAtZw (bigBytes r3))
      let digest8 := ec.add digest7 pointsQuotient
      let quotientF := invertBls quotient1
      let g2 := natToBE 48 vk.g2srs0x1 ++ natToBE 48 vk.g2srs0x0 ++
        natToBE 48 vk.g2srs0y1 ++ natToBE 48 vk.g2srs0y0 ++
        natToBE 48 vk.g2srs1x1 ++ natToBE 48 vk.g2srs1x0 ++
        natToBE 48 vk.g2srs1y1 ++ natToBE 48 vk.g2srs1y0
      .ok (ec.pairingCheck (digest8 ++ quotientF) g2)

/-- The Fiat-Shamir challenges a Variant B BLS12-381 verifier derives from
a raw 35-element proof and the public inputs. -/
def challengesOfBlsB (h : HashFn) (vk : VkBls) (proof pis : List Bytes) :
    Nat × Nat × Nat × Nat :=
  challengesBls h vk (readProofBlsB proof).lcom (readProofBlsB proof).rcom
    (readProofBlsB proof).ocom (readProofBlsB proof).gp (readProofBlsB proof).h0
    (readProofBlsB proof).h1 (readProofBlsB proof).h2 pis

/-- C2. Every proof-supplied scalar (wire evaluations, permutation
evaluations, grand-product-shifted evaluation, and for the
explicit-quotient Variant B verifier also the quotient and linearization
evaluations) and every public input is range-checked against the scalar
field modulus; when any check fails, the generated verifiers return the
non-exceptional boolean `false` (not an assertion failure), and they do so
for every hash oracle and every elliptic-curve oracle — i.e. before any
transcript hashing or curve arithmetic. -/
theorem fieldMembership_invalidProof :
    (∀ (h : HashFn) (ec : ECOps) (vk : VkBn) (proof pis : List Bytes),
      proof.length = 24 → pis.length = vk.nbPublicInputs →
      (scalarOutOfRangeA rModBn (readProofBn254 proof) ∨
        pubInputOutOfRange rModBn pis = true) →
      verifyPuyaBn254 h ec vk proof pis = VRes.ok false)
    ∧ (∀ (h : HashFn) (ec : ECOps) (vk : VkBls) (proof pis : List Bytes),
      (scalarOutOfRangeB rModBls (readProofBlsB proof) ∨
        pubInputOutOfRange rModBls pis = true) →
      verifyPuyaBls12_381 h ec vk proof pis = VRes.ok false)
    ∧ (∀ (h : HashFn) (ec : ECOps) (vk : VkBls) (proof pis : List Bytes),
      proof.length = 33 → pis.length = vk.nbPublicInputs →
      (scalarOutOfRangeA rModBls (readProofBlsA proof) ∨
        pubInputOutOfRange rModBls pis = true) →
      verifySmartContractBls12_381 h ec vk proof pis = VRes.ok false) := by
  refine ⟨?_, ?_, ?_⟩
  · intro h ec vk proof pis hlen hpis hbad
    simp only [verifyPuyaBn254]
    rw [if_neg (fun hc => hc hlen), if_neg (fun hc => hc hpis)]
    by_cases hs : scalarOutOfRangeA rModBn (readProofBn254 proof)
    · rw [if_pos hs]
    · rw [if_neg hs]
      rcases hbad with hbad | hbad
      · exact absurd hbad hs
      · rw [if_pos hbad]
  · intro h ec vk proof pis hbad
    simp only [verifyPuyaBls12_381]
    by_cases hs : scalarOutOfRangeB rModBls (readProofBlsB proof)
    · rw [if_pos hs]
    · rw [if_neg hs]
      rcases hbad with hbad | hbad
      · exact absurd hbad hs
      · rw [if_pos hbad]
  · intro h ec vk proof pis hlen hpis hbad
    simp only [verifySmartContractBls12_381]
    rw [if_neg (fun hc => hc hlen), if_neg (fun hc => hc hpis)]
    by_cases hs : scalarOutOfRangeA rModBls (readProofBlsA proof)
    · rw [if_pos hs]
    · rw [if_neg hs]
      rcases hbad with hbad | hbad
      · exact absurd hbad hs
      · rw [if_pos hbad]

/-- An all-zero BN254 verifying-key constant record (witness material). -/
def vkZeroBn : VkBn :=
  ⟨0, 0, 0, 0, 0, [], [], [], [], [], [], [], [], 0, 0, 0, 0, 0, 0, 0, 0, 0, 0⟩

/-- A 24-element proof whose wire evaluation `l(zeta)` equals the BN254
curve order, failing the field-membership check (witness material). -/
def proofBadBn : List Bytes :=
  List.replicate 12 (bzero 32) ++ [natToBE 32 rModBn] ++ List.replicate 11 (bzero 32)

/-- Witness for C2 on the BN254 verifier at a concrete out-of-range
proof. -/
theorem fieldMembership_invalidProof_witness :
    (proofBadBn.length = 24
      ∧ ([] : List Bytes).length = vkZeroBn.nbPublicInputs
      ∧ scalarOutOfRangeA rModBn (readProofBn254 proofBadBn))
    ∧ verifyPuyaBn254 hashZero ecTrivial vkZeroBn proofBadBn [] = VRes.ok false :=
  ⟨⟨by decide, by decide, by decide⟩,
    fieldMembership_invalidProof.1 hashZero ecTrivial vkZeroBn proofBadBn []
      (by decide) (by decide) (Or.inl (by decide))⟩

/-- C3. In the Variant B (explicit-quotient) BLS12-381 verifier, for every
proof whose scalars and public inputs pass the field-membership checks,
the two sides of the quotient identity are computed independently
(`quotientLhsB` from the linearization evaluation, public-input term,
permutation term and `alpha^2 * Lagrange`; `quotientRhsB` from the
quotient evaluation and the vanishing evaluation), and when they differ
the verifier returns the boolean `false` for every elliptic-curve oracle —
i.e. immediately, before performing any elliptic-curve operation. -/
theorem quotientIdentity_earlyExit (h : HashFn) (vk : VkBls) (proof pis : List Bytes)
    (hsc : ¬ scalarOutOfRangeB rModBls (readProofBlsB proof))
    (hpi : pubInputOutOfRange rModBls pis = false)
    (hne : quotientLhsB rModBls vk (readProofBlsB proof) pis
        (challengesOfBlsB h vk proof pis).1
        (challengesOfBlsB h vk proof pis).2.1
        (challengesOfBlsB h vk proof pis).2.2.1
        (challengesOfBlsB h vk proof pis).2.2.2
      ≠ quotientRhsB rModBls vk (readProofBlsB proof)
        (challengesOfBlsB h vk proof pis).2.2.2) :
    ∀ ec : ECOps, verifyPuyaBls12_381 h ec vk proof pis = VRes.ok false := by
  intro ec
  simp only [challengesOfBlsB] at hne
  simp only [verifyPuyaBls12_381]
  rw [if_neg hsc, if_neg (by rw [hpi]; exact Bool.false_ne_true)]
  rw [if_pos hne]

/-- A BLS12-381 verifying-key constant record with domain size 4 and no
public inputs (witness material). -/
def vkWitBls : VkBls :=
  ⟨0, 4, 1, 1, 0, [], [], [], [], [], [], [], [],
   [], [], [], [], [], [], [], [], 0, 0, 0, 0, 0, 0, 0, 0, 0, 0⟩

/-- A 35-element proof whose linearization evaluation is 1 and all other
elements are zero: it passes the field checks and fails the quotient
identity (witness material). -/
def proofQuotBls : List Bytes :=
  List.replicate 28 (bzero 32) ++ [natToBE 32 1] ++ List.replicate 6 (bzero 32)

/-- Witness for C3 at a concrete proof failing the quotient identity. -/
theorem quotientIdentity_earlyExit_witness :
    (¬ scalarOutOfRangeB rModBls (readProofBlsB proofQuotBls)
      ∧ pubInputOutOfRange rModBls [] = false
      ∧ quotientLhsB rModBls vkWitBls (readProofBlsB proofQuotBls) []
          (challengesOfBlsB hashZero vkWitBls proofQuotBls []).1
          (challengesOfBlsB hashZero vkWitBls proofQuotBls []).2.1
          (challengesOfBlsB hashZero vkWitBls proofQuotBls []).2.2.1
          (challengesOfBlsB hashZero vkWitBls proofQuotBls []).2.2.2
        ≠ quotientRhsB rModBls vkWitBls (readProofBlsB proofQuotBls)
          (challengesOfBlsB hashZero vkWitBls proofQuotBls []).2.2.2)
    ∧ verifyPuyaBls12_381 hashZero ecTrivial vkWitBls proofQuotBls [] = VRes.ok false :=
  ⟨⟨by decide, by decide, by decide⟩,
    quotientIdentity_earlyExit hashZero vkWitBls proofQuotBls []
      (by decide) (by decide) (by decide) ecTrivial⟩

/-! ## Correctness of the batch inversion (claim C4) -/

theorem batchDiffsGo_length (q zeta omega : Nat) :
    ∀ (n w : Nat), (batchDiffsGo q zeta omega w n).length = n := by
  intro n
  induction n with
  | zero => intro w; rfl
  | succ k ih => intro w; simp [batchDiffsGo, ih]

theorem batchDiffs_length (q zeta omega n : Nat) :
    (batchDiffs q zeta omega n).length = n := batchDiffsGo_length q zeta omega n 1

theorem fwdProducts_length (q : Nat) :
    ∀ (ds : List Nat) (prev : Nat), ((fwdProducts q prev ds).1).length = ds.length := by
  intro ds
  induction ds with
  | nil => intro prev; rfl
  | cons d rest ih => intro prev; simp [fwdProducts, ih]

theorem unwind_length (q inv : Nat) :
    ∀ ps : List (Nat × Nat), ((unwind q inv ps).1).length = ps.length := by
  intro ps
  induction ps with
  | nil => rfl
  | cons dt rest ih =>
    simp only [unwind, List.length_cons]
    rw [← ih]

theorem zip_getD (l1 l2 : List Nat) (k : Nat) (h1 : k < l1.length)
    (h2 : k < l2.length) :
    (l1.zip l2).getD k (0, 0) = (l1.getD k 0, l2.getD k 0) := by
  induction l1 generalizing l2 k with
  | nil => simp at h1
  | cons a as ih =>
    cases l2 with
    | nil => simp at h2
    | cons b bs =>
      cases k with
      | zero => rfl
      | succ j =>
        simp only [List.zip_cons_cons, List.getD_cons_succ]
        exact ih bs j (by simpa using h1) (by simpa using h2)

theorem unwind_final (q : Nat) :
    ∀ (ps : List (Nat × Nat)) (inv : Nat),
      Nat.ModEq q ((unwind q inv ps).2) (inv * (ps.map Prod.fst).prod) := by
  intro ps
  induction ps with
  | nil =>
    intro inv
    simp only [unwind, List.map_nil, List.prod_nil, Nat.mul_one]
    exact Nat.ModEq.refl inv
  | cons dt rest ih =>
    intro inv
    simp only [unwind, List.map_cons, List.prod_cons]
    calc ((unwind q inv rest).2 * dt.1) % q
        ≡ (unwind q inv rest).2 * dt.1 [MOD q] := Nat.mod_modEq _ _
      _ ≡ inv * (rest.map Prod.fst).prod * dt.1 [MOD q] :=
          Nat.ModEq.mul_right dt.1 (ih inv)
      _ = inv * (dt.1 * (rest.map Prod.fst).prod) := by ring

theorem unwind_entry (q : Nat) :
    ∀ (ps : List (Nat × Nat)) (inv k : Nat), k < ps.length →
      ((unwind q inv ps).1).getD k 0 =
        ((unwind q inv (ps.drop (k + 1))).2 * (ps.getD k (0, 0)).2) % q := by
  intro ps
  induction ps with
  | nil => intro inv k hk; simp at hk
  | cons dt rest ih =>
    intro inv k hk
    cases k with
    | zero => rfl
    | succ j =>
      simp only [unwind, List.getD_cons_succ, List.drop_succ_cons]
      exact ih inv j (by simpa using hk)

theorem fwdProducts_entry (q : Nat) :
    ∀ (ds : List Nat) (prev k : Nat), k < ds.length →
      Nat.ModEq q (((fwdProducts q prev ds).1).getD k 0)
        (prev * (ds.take (k + 1)).prod) := by
  intro ds
  induction ds with
  | nil => intro prev k hk; simp at hk
  | cons d rest ih =>
    intro prev k hk
    cases k with
    | zero =>
      simp only [fwdProducts, List.getD_cons_zero, List.take_succ_cons,
        List.take_zero, List.prod_cons, List.prod_nil, Nat.mul_one]
      calc (d * prev) % q ≡ d * prev [MOD q] := Nat.mod_modEq _ _
        _ = prev * d := Nat.mul_comm d prev
    | succ j =>
      simp only [fwdProducts, List.getD_cons_succ, List.take_succ_cons,
        List.prod_cons]
      calc ((fwdProducts q ((d * prev) % q) rest).1).getD j 0
          ≡ ((d * prev) % q) * (rest.take (j + 1)).prod [MOD q] :=
            ih ((d * prev) % q) j (by simpa using hk)
        _ ≡ d * prev * (rest.take (j + 1)).prod [MOD q] :=
            Nat.ModEq.mul_right _ (Nat.mod_modEq _ _)
        _ = prev * (d * (rest.take (j + 1)).prod) := by ring

theorem fwdProducts_final (q : Nat) :
    ∀ (ds : List Nat) (prev : Nat),
      Nat.ModEq q ((fwdProducts q prev ds).2) (prev * ds.prod) := by
  intro ds
  induction ds with
  | nil =>
    intro prev
    simp only [fwdProducts, List.prod_nil, Nat.mul_one]
    exact Nat.ModEq.refl prev
  | cons d rest ih =>
    intro prev
    simp only [fwdProducts, List.prod_cons]
    calc (fwdProducts q ((d * prev) % q) rest).2
        ≡ ((d * prev) % q) * rest.prod [MOD q] := ih ((d * prev) % q)
      _ ≡ d * prev * rest.prod [MOD q] :=
          Nat.ModEq.mul_right _ (Nat.mod_modEq _ _)
      _ = prev * (d * rest.prod) := by ring

/-- The running-product list with its leading 1 (`temp` in the templates)
evaluated at index `k`: congruent to the product of the first `k`
differences. -/
theorem temps_entry (q : Nat) (ds : List Nat) (k : Nat) (hk : k < ds.length + 1) :
    Nat.ModEq q (((1 : Nat) :: (fwdProducts q 1 ds).1).getD k 0)
      ((ds.take k).prod) := by
  cases k with
  | zero =>
    simp only [List.getD_cons_zero, List.take_zero, List.prod_nil]
    exact Nat.ModEq.refl 1
  | succ j =>
    simp only [List.getD_cons_succ]
    have hj : j < ds.length := by omega
    have h := fwdProducts_entry q ds 1 j hj
    rw [Nat.one_mul] at h
    have htake : ds.take (j + 1) = ds.take (j + 1) := rfl
    exact h

/-- C4 (amended). In the generated verifiers' public-input interpolation,
the Lagrange denominators are inverted with exactly one modular inversion
(the single Fermat exponentiation `expmod prod (q-2) q` in
`lagrangeInvertedBatch`) via the batch-inversion trick — forward running
products, one inversion, backward unwinding — over nbPublicInputs-many
terms; provided the one Fermat inversion inverts the forward product,
after the unwinding the `k`-th batch entry is the modular inverse of
`zeta - omega^k`: their product is 1 modulo the scalar field. -/
theorem batchInversion_inverts (q zeta omega n : Nat)
    (hferm : (expmod ((fwdProducts q 1 (batchDiffs q zeta omega n)).2) (q - 2) q
        * (fwdProducts q 1 (batchDiffs q zeta omega n)).2) % q = 1)
    (k : Nat) (hk : k < n) :
    ((lagrangeInvertedBatch q zeta omega n).getD k 0
      * (batchDiffs q zeta omega n).getD k 0) % q = 1 := by
  unfold lagrangeInvertedBatch
  simp only
  set D := batchDiffs q zeta omega n with hD
  set F := fwdProducts q 1 D with hF
  set I := expmod F.2 (q - 2) q with hI
  set T := (1 : Nat) :: F.1 with hT
  set PS := D.zip T with hPS
  have hlds : D.length = n := batchDiffs_length q zeta omega n
  have hltemps : T.length = n + 1 := by
    rw [hT, List.length_cons, hF, fwdProducts_length, hlds]
  have hlps : PS.length = n := by
    rw [hPS, List.length_zip, hlds, hltemps]
    omega
  have hentry := unwind_entry q PS I k (by omega)
  have hzip := zip_getD D T k (by omega) (by omega)
  have hmapfst : PS.map Prod.fst = D := List.map_fst_zip _ _ (by omega)
  have hmapdrop : ((PS.drop (k + 1)).map Prod.fst) = D.drop (k + 1) := by
    rw [List.map_drop, hmapfst]
  have hsuf := unwind_final q (PS.drop (k + 1)) I
  rw [hmapdrop] at hsuf
  have htk : Nat.ModEq q (T.getD k 0) ((D.take k).prod) := by
    rw [hT, hF]
    exact temps_entry q D k (by omega)
  have hfin := fwdProducts_final q D 1
  rw [Nat.one_mul] at hfin
  have hdropk : D.drop k = D.getD k 0 :: D.drop (k + 1) := by
    have hklt : k < D.length := by omega
    rw [List.getD_eq_getElem _ _ hklt]
    exact List.drop_eq_getElem_cons hklt
  have hprodsplit : (D.take k).prod * (D.getD k 0 * (D.drop (k + 1)).prod) = D.prod := by
    rw [← List.prod_cons, ← hdropk, List.prod_take_mul_prod_drop]
  rw [hentry, hzip]
  have hchain : Nat.ModEq q
      (((unwind q I (PS.drop (k + 1))).2 * (D.getD k 0, T.getD k 0).2) % q
        * D.getD k 0) (I * F.2) := by
    calc ((unwind q I (PS.drop (k + 1))).2 * (D.getD k 0, T.getD k 0).2) % q
          * D.getD k 0
        ≡ (unwind q I (PS.drop (k + 1))).2 * T.getD k 0 * D.getD k 0 [MOD q] :=
          Nat.ModEq.mul_right _ (Nat.mod_modEq _ _)
      _ ≡ I * (D.drop (k + 1)).prod * (D.take k).prod * D.getD k 0 [MOD q] :=
          Nat.ModEq.mul_right _ (Nat.ModEq.mul hsuf htk)
      _ = I * ((D.take k).prod * (D.getD k 0 * (D.drop (k + 1)).prod)) := by ring
      _ = I * D.prod := by rw [hprodsplit]
      _ ≡ I * F.2 [MOD q] := Nat.ModEq.mul_left I hfin.symm
  calc ((unwind q I (PS.drop (k + 1))).2 * (D.getD k 0, T.getD k 0).2) % q
        * D.getD k 0 % q
      = (I * F.2) % q := hchain
    _ = 1 := hferm

/-- Witness for C4 at `q = 7`, `zeta = 3`, `omega = 2`, two public-input
terms. -/
theorem batchInversion_inverts_witness :
    ((expmod ((fwdProducts 7 1 (batchDiffs 7 3 2 2)).2) (7 - 2) 7
        * (fwdProducts 7 1 (batchDiffs 7 3 2 2)).2) % 7 = 1 ∧ 0 < 2)
    ∧ ((lagrangeInvertedBatch 7 3 2 2).getD 0 0
        * (batchDiffs 7 3 2 2).getD 0 0) % 7 = 1 :=
  ⟨⟨by decide, by decide⟩,
    batchInversion_inverts 7 3 2 2 (by decide) 0 (by decide)⟩

/-- A BLS12-381 verifying-key constant record with one public input and
domain size 4 (counterexample material for C4). -/
def vkCexBls : VkBls :=
  ⟨1, 4, 1, 2, 0, [], [], [], [], [], [], [], [],
   [], [], [], [], [], [], [], [], 0, 0, 0, 0, 0, 0, 0, 0, 0, 0⟩

/-- Counterexample to C4 as stated: the batch inversion of the generated
verifiers ranges over nbPublicInputs-many terms, not domainSize-many. At
a verifying key with 1 public input and domain size 4, the batch the
verifier builds has 1 entry, not 4. -/
theorem batchInversion_domainSize_counterexample :
    vkCexBls.nbPublicInputs = 1 ∧ vkCexBls.size = 4
    ∧ (lagrangeInvertedBatch rModBls 3 vkCexBls.omega vkCexBls.nbPublicInputs).length
        = vkCexBls.nbPublicInputs
    ∧ (lagrangeInvertedBatch rModBls 3 vkCexBls.omega vkCexBls.nbPublicInputs).length
        ≠ vkCexBls.size := by
  refine ⟨rfl, rfl, ?_, ?_⟩
  · decide
  · decide

/-! ## Proof element counts (claim C5) -/

/-- A generated verifier's proof layout summary: how many 32-byte elements
the proof blob holds, and whether the layout carries the quotient and
linearization evaluations (the marker of Variant B proofs, which carry
those two additional scalars). -/
structure TemplateLayout where
  elemCount : Nat
  hasQuotientLinearizationEvals : Bool
deriving DecidableEq

/-- The layout of `tmplPuyaVerifierBn254` (`templateBN254.go`): 24
elements (`assert proof.length == 24`), and its Read-proof section binds
no quotient or linearization evaluation — a Variant A layout. -/
def layoutBn254 : TemplateLayout := ⟨24, false⟩

/-- The layout of `tmplPuyaVerifierBls12_381` (`templateBLS12_381.go`):
35 elements (fixed by the argument type `StaticArray[Bytes32, 35]`), and
its Read-proof section binds `QUOTIENT_POLY_AT_Z` and `LINEAR_POLY_AT_Z`
— the Variant B layout. -/
def layoutPuyaBls : TemplateLayout := ⟨35, true⟩

/-- The layout of `tmplSmartContractVerifierBls12_381`: 33 elements
(`assert proof.length == 33`), no quotient or linearization evaluation —
a Variant A layout. -/
def layoutSmartContractBls : TemplateLayout := ⟨33, false⟩

/-- C5 (amended). The proof blob consumed by a generated verifier has a
fixed 32-byte-element count per curve and protocol variant: 35 for the
BLS12-381 explicit-quotient (Variant B) verifier — whose argument type
fixes the count, the body reading exactly the chunks below index 35 — and
fewer for the Variant A verifiers, 24 for BN254 and 33 for BLS12-381,
which reject any proof argument of a different element count through a
failed assertion. -/
theorem proofLength_fixed :
    (∀ (h : HashFn) (ec : ECOps) (vk : VkBn) (proof pis : List Bytes),
      proof.length ≠ 24 → verifyPuyaBn254 h ec vk proof pis = VRes.assertFail)
    ∧ (∀ (h : HashFn) (ec : ECOps) (vk : VkBls) (proof pis : List Bytes),
      proof.length ≠ 33 → verifySmartContractBls12_381 h ec vk proof pis = VRes.assertFail)
    ∧ (∀ (p1 p2 : List Bytes), (∀ i, i < 35 → p1.getD i [] = p2.getD i []) →
      readProofBlsB p1 = readProofBlsB p2) := by
  refine ⟨?_, ?_, ?_⟩
  · intro h ec vk proof pis hlen
    simp only [verifyPuyaBn254]
    rw [if_pos hlen]
  · intro h ec vk proof pis hlen
    simp only [verifySmartContractBls12_381]
    rw [if_pos hlen]
  · intro p1 p2 hp
    unfold readProofBlsB pchunk
    rw [hp 0 (by omega), hp 1 (by omega), hp 2 (by omega), hp 3 (by omega),
      hp 4 (by omega), hp 5 (by omega), hp 6 (by omega), hp 7 (by omega),
      hp 8 (by omega), hp 9 (by omega), hp 10 (by omega), hp 11 (by omega),
      hp 12 (by omega), hp 13 (by omega), hp 14 (by omega), hp 15 (by omega),
      hp 16 (by omega), hp 17 (by omega), hp 18 (by omega), hp 19 (by omega),
      hp 20 (by omega), hp 21 (by omega), hp 22 (by omega), hp 23 (by omega),
      hp 24 (by omega), hp 25 (by omega), hp 26 (by omega), hp 27 (by omega),
      hp 28 (by omega), hp 29 (by omega), hp 30 (by omega), hp 31 (by omega),
      hp 32 (by omega), hp 33 (by omega), hp 34 (by omega)]

/-- Witness for C5: the BN254 verifier rejects an empty proof argument. -/
theorem proofLength_fixed_witness :
    (([] : List Bytes).length ≠ 24)
    ∧ verifyPuyaBn254 hashZero ecTrivial vkZeroBn [] [] = VRes.assertFail :=
  ⟨by decide, proofLength_fixed.1 hashZero ecTrivial vkZeroBn [] [] (by decide)⟩

/-- Counterexample to C5 as stated: the 24-element layout (BN254) is a
Variant A layout — its proof carries no quotient or linearization
evaluation — yet the claim attributes the count 24 to Variant B and
requires Variant A layouts to have fewer elements; the BN254 Variant A
layout has exactly 24 elements, not fewer. (The only Variant B layout,
BLS12-381, has 35; the BLS12-381 Variant A layout has 33.) -/
theorem proofLength_variant_counterexample :
    layoutBn254.hasQuotientLinearizationEvals = false
    ∧ layoutBn254.elemCount = 24
    ∧ ¬ layoutBn254.elemCount < 24
    ∧ layoutPuyaBls.hasQuotientLinearizationEvals = true
    ∧ layoutPuyaBls.elemCount = 35
    ∧ layoutSmartContractBls.hasQuotientLinearizationEvals = false
    ∧ layoutSmartContractBls.elemCount = 33 := by
  refine ⟨rfl, rfl, ?_, rfl, rfl, rfl, rfl⟩
  decide

/-! ## The code generator (`WritePythonCode`, claims C6 and C7)

`WritePythonCode` (verifier.go) checks the verifying key for custom gates,
selects the template for the key's curve and the requested contract type,
and only then executes the template into the writer. The emitted source
text is modelled as a `Rendered` value carrying the template identity and
every verifying-key datum the template inlines (the text is a fixed
injective function of these); the writer is a list of emitted values. -/

/-- The `ContractType` enum of `verifier.go`. -/
inductive ContractType where
  | logicSig : ContractType
  | smartContract : ContractType
deriving DecidableEq

/-- A gnark BN254 verifying key, as consumed by the generator: the
custom-gate commitment indexes and the data inlined into the template
(G1 points as affine coordinate pairs). -/
structure GnarkVkBn where
  commitmentConstraintIndexes : List Nat
  nbPublicVariables : Nat
  size : Nat
  sizeInv : Nat
  generator : Nat
  cosetShift : Nat
  ql : Nat × Nat
  qr : Nat × Nat
  qo : Nat × Nat
  qm : Nat × Nat
  qk : Nat × Nat
  s1 : Nat × Nat
  s2 : Nat × Nat
  s3 : Nat × Nat
  g2srs : List (Nat × Nat × Nat × Nat)
  g1srsX : Nat
  g1srsY : Nat
deriving DecidableEq

/-- A gnark BLS12-381 verifying key, as consumed by the generator. -/
structure GnarkVkBls where
  commitmentConstraintIndexes : List Nat
  nbPublicVariables : Nat
  size : Nat
  sizeInv : Nat
  generator : Nat
  cosetShift : Nat
  ql : G1Bls
  qr : G1Bls
  qo : G1Bls
  qm : G1Bls
  qk : G1Bls
  s1 : G1Bls
  s2 : G1Bls
  s3 : G1Bls
  g2srs : List (Nat × Nat × Nat × Nat)
  g1srsX : Nat
  g1srsY : Nat
deriving DecidableEq

/-- The constants a BLS12-381 template inlines: scalars, the `hex`
(arithmetic) and `hexEncoded` (Fiat-Shamir) encodings of each
verifying-key point, and the trusted-setup values. -/
structure RenderedBlsConsts where
  nbPublicVariables : Nat
  size : Nat
  sizeInv : Nat
  generator : Nat
  cosetShift : Nat
  qlHex : Bytes
  qrHex : Bytes
  qoHex : Bytes
  qmHex : Bytes
  qkHex : Bytes
  s1Hex : Bytes
  s2Hex : Bytes
  s3Hex : Bytes
  qlFs : Bytes
  qrFs : Bytes
  qoFs : Bytes
  qmFs : Bytes
  qkFs : Bytes
  s1Fs : Bytes
  s2Fs : Bytes
  s3Fs : Bytes
  g2srs : List (Nat × Nat × Nat × Nat)
  g1srsX : Nat
  g1srsY : Nat
deriving DecidableEq

/-- Template substitution for BLS12-381: each verifying-key point is
inlined twice, through the `hex` and `hexEncoded` template functions. -/
def renderBlsConsts (vk : GnarkVkBls) : RenderedBlsConsts where
  nbPublicVariables := vk.nbPublicVariables
  size := vk.size
  sizeInv := vk.sizeInv
  generator := vk.generator
  cosetShift := vk.cosetShift
  qlHex := hexPointBytes vk.ql
  qrHex := hexPointBytes vk.qr
  qoHex := hexPointBytes vk.qo
  qmHex := hexPointBytes vk.qm
  qkHex := hexPointBytes vk.qk
  s1Hex := hexPointBytes vk.s1
  s2Hex := hexPointBytes vk.s2
  s3Hex := hexPointBytes vk.s3
  qlFs := hexEncodedPointBytes vk.ql
  qrFs := hexEncodedPointBytes vk.qr
  qoFs := hexEncodedPointBytes vk.qo
  qmFs := hexEncodedPointBytes vk.qm
  qkFs := hexEncodedPointBytes vk.qk
  s1Fs := hexEncodedPointBytes vk.s1
  s2Fs := hexEncodedPointBytes vk.s2
  s3Fs := hexEncodedPointBytes vk.s3
  g2srs := vk.g2srs
  g1srsX := vk.g1srsX
  g1srsY := vk.g1srsY

/-- An emitted verifier source text: the chosen template (curve ×
contract type) with its inlined constants. -/
inductive Rendered where
  | bn254 (t : ContractType) (vk : GnarkVkBn) : Rendered
  | bls12381 (t : ContractType) (c : RenderedBlsConsts) : Rendered
deriving DecidableEq

/-- A verifying key as received by `WritePythonCode` through the
`plonk.VerifyingKey` interface: one of the two supported concrete types,
or some other curve's key (for which only the possible presence of the
reflected field matters). -/
inductive PlonkVk where
  | bn254 (vk : GnarkVkBn) : PlonkVk
  | bls12381 (vk : GnarkVkBls) : PlonkVk
  | unsupported (indexes : Option (List Nat)) : PlonkVk
deriving DecidableEq

/-- The reflective lookup of the key's `CommitmentConstraintIndexes`
field. -/
def commitmentConstraintIndexesOf : PlonkVk → Option (List Nat)
  | PlonkVk.bn254 v => some v.commitmentConstraintIndexes
  | PlonkVk.bls12381 v => some v.commitmentConstraintIndexes
  | PlonkVk.unsupported idx => idx

/-- Generation errors of `WritePythonCode`. -/
inductive GenErr where
  | reflectionFailed : GenErr
  | customGatesUnsupported : GenErr
  | unsupportedCurve : GenErr
deriving DecidableEq

/-- `hasCustomGates` (verifier.go lines 129–143): reflectively read the
key's `CommitmentConstraintIndexes` field — an error if it is absent —
and report whether it is non-empty. -/
def hasCustomGates (vk : PlonkVk) : Except GenErr Bool :=
  match commitmentConstraintIndexesOf vk with
  | none => Except.error GenErr.reflectionFailed
  | some l => Except.ok (decide (0 < l.length))

/-- `WritePythonCode` (verifier.go lines 38–127): reject custom gates,
select the template by curve and contract type, execute it into the
writer. The first component lists what was written to the writer; the
second is the returned error, if any. -/
def writePythonCode (vk : PlonkVk) (t : ContractType) : List Rendered × Option GenErr :=
  match hasCustomGates vk with
  | Except.error e => ([], some e)
  | Except.ok true => ([], some GenErr.customGatesUnsupported)
  | Except.ok false =>
    match vk with
    | PlonkVk.bn254 v => ([Rendered.bn254 t v], none)
    | PlonkVk.bls12381 v => ([Rendered.bls12381 t (renderBlsConsts v)], none)
    | PlonkVk.unsupported _ => ([], some GenErr.unsupportedCurve)

/-- C6. For every verifying key whose custom-gate commitment-index field
is non-empty, verifier generation fails with the custom-gates-unsupported
error and writes nothing to the output writer; for a supported-curve key
with an empty field, generation returns no error (in particular it does
not fail for this reason). -/
theorem customGates_rejected (t : ContractType) :
    (∀ (vk : PlonkVk) (l : List Nat),
      commitmentConstraintIndexesOf vk = some l → l ≠ [] →
      writePythonCode vk t = ([], some GenErr.customGatesUnsupported))
    ∧ (∀ v : GnarkVkBn, v.commitmentConstraintIndexes = [] →
        (writePythonCode (PlonkVk.bn254 v) t).2 = none)
    ∧ (∀ v : GnarkVkBls, v.commitmentConstraintIndexes = [] →
        (writePythonCode (PlonkVk.bls12381 v) t).2 = none) := by
  refine ⟨?_, ?_, ?_⟩
  · intro vk l hl hne
    have hpos : 0 < l.length := List.length_pos.mpr hne
    simp [writePythonCode, hasCustomGates, hl, hpos]
  · intro v hv
    simp [writePythonCode, hasCustomGates, commitmentConstraintIndexesOf, hv]
  · intro v hv
    simp [writePythonCode, hasCustomGates, commitmentConstraintIndexesOf, hv]

/-- A BN254 verifying key with one custom-gate commitment index
(witness material). -/
def vkCustomBn : GnarkVkBn :=
  ⟨[0], 0, 0, 0, 0, 0, (0, 0), (0, 0), (0, 0), (0, 0), (0, 0), (0, 0), (0, 0), (0, 0),
   [], 0, 0⟩

/-- Witness for C6 at a concrete key carrying a custom-gate commitment
index. -/
theorem customGates_rejected_witness :
    (commitmentConstraintIndexesOf (PlonkVk.bn254 vkCustomBn) = some [0]
      ∧ ([0] : List Nat) ≠ [])
    ∧ writePythonCode (PlonkVk.bn254 vkCustomBn) ContractType.logicSig
        = ([], some GenErr.customGatesUnsupported) :=
  ⟨⟨by decide, by decide⟩,
    (customGates_rejected ContractType.logicSig).1 (PlonkVk.bn254 vkCustomBn) [0]
      (by decide) (by decide)⟩

/-- `WritePythonCode` seen with its writer: generation appends the
emitted source to whatever the writer already holds, and returns the
error. Generation reads nothing but the verifying key and the contract
type. -/
def writePythonCodeTo (vk : PlonkVk) (t : ContractType) (w : List Rendered) :
    List Rendered × Option GenErr :=
  (w ++ (writePythonCode vk t).1, (writePythonCode vk t).2)

/-- C7. Verifier generation is deterministic: for equal inputs
(verifying key, output kind), two invocations — regardless of the state
of the writers they stream to — emit identical source text and return
identical results; the emitted text is a pure function of the verifying
key and the output kind. -/
theorem generation_deterministic (vk : PlonkVk) (t : ContractType)
    (w1 w2 : List Rendered) :
    ((writePythonCodeTo vk t w1).1).drop w1.length
      = ((writePythonCodeTo vk t w2).1).drop w2.length
    ∧ (writePythonCodeTo vk t w1).2 = (writePythonCodeTo vk t w2).2 := by
  constructor
  · simp only [writePythonCodeTo]
    rw [List.drop_left, List.drop_left]
  · rfl

/-! ## The trusted-setup loader (`setup/setup.go`, claims C8 and C9) -/

/-- Errors of `loadTrustedSetupBytes`. -/
inductive LoadErr where
  | needAtLeastTwo : LoadErr
  | pkMissing : LoadErr
  | vkMissing : LoadErr
  | insufficient : LoadErr
deriving DecidableEq

/-- Result of a load: a Go panic (out-of-range slice), an error, or the
two byte blobs. -/
inductive LoadRes where
  | panic : LoadRes
  | err (e : LoadErr) : LoadRes
  | ok (g1 : Bytes) (vk : Bytes) : LoadRes
deriving DecidableEq

/-- `binary.BigEndian.Uint32` on the first four bytes. -/
def beUint32 (bs : Bytes) : Nat := beToNat (bs.take 4)

/-- `loadTrustedSetupBytes` (setup.go lines 289–321) over the two blobs
read from the embedded filesystem: require at least 2 G1 points, read
both files, compare the needed byte count (uint64 arithmetic) and the
declared big-endian count against the request, then truncate the first
blob and overwrite its 4-byte header with the (uint32) requested count.
Reading the 4-byte header of a blob shorter than 4 bytes is a Go slice
panic. -/
def loadTrustedSetupBytes (pkFile vkFile : Option Bytes) (g1Count g1CompressedSize : Nat) :
    LoadRes :=
  if g1Count < 2 then LoadRes.err LoadErr.needAtLeastTwo
  else
    match pkFile with
    | none => LoadRes.err LoadErr.pkMissing
    | some g1Bytes =>
      match vkFile with
      | none => LoadRes.err LoadErr.vkMissing
      | some vkBytes =>
        if g1Bytes.length < 4 then LoadRes.panic
        else
          let bytesNeeded := (4 + g1Count * g1CompressedSize) % 2 ^ 64
          let declared := beUint32 g1Bytes
          if g1Bytes.length < bytesNeeded ∨ declared < g1Count then
            LoadRes.err LoadErr.insufficient
          else
            LoadRes.ok (natToBE 4 (g1Count % 2 ^ 32) ++ (g1Bytes.take bytesNeeded).drop 4)
              vkBytes

theorem beToNat_lt (bs : Bytes) (hb : ∀ b ∈ bs, b < 256) :
    beToNat bs < 256 ^ bs.length := by
  suffices h : ∀ acc, List.foldl (fun a b => a * 256 + b) acc bs < (acc + 1) * 256 ^ bs.length by
    have := h 0
    simpa using this
  induction bs with
  | nil => intro acc; simp
  | cons b rest ih =>
    intro acc
    have hbb : b < 256 := hb b (List.mem_cons_self b rest)
    have hrest : ∀ x ∈ rest, x < 256 := fun x hx => hb x (List.mem_cons_of_mem b hx)
    have := ih hrest (acc * 256 + b)
    calc List.foldl (fun a c => a * 256 + c) (acc * 256 + b) rest
        < (acc * 256 + b + 1) * 256 ^ rest.length := this
      _ ≤ (acc + 1) * 256 ^ (rest.length + 1) := by
          have h1 : acc * 256 + b + 1 ≤ (acc + 1) * 256 := by omega
          calc (acc * 256 + b + 1) * 256 ^ rest.length
              ≤ (acc + 1) * 256 * 256 ^ rest.length := Nat.mul_le_mul_right _ h1
            _ = (acc + 1) * 256 ^ (rest.length + 1) := by ring
      _ = (acc + 1) * 256 ^ (b :: rest).length := by rw [List.length_cons]

/-- C8. For every requested first-group element count `n`: the loader
fails when `n < 2` (for any files, i.e. before reading anything); it
fails with the insufficient-parameters error when the declared 4-byte
big-endian header count or the number of available bytes is smaller than
requested; and otherwise it returns a first blob of exactly
`4 + n * elementSize` bytes whose first 4 bytes are the big-endian
encoding of `n`, together with the unchanged second blob. -/
theorem loadTrustedSetup_spec (pk vkB : Bytes) (n size : Nat)
    (hbytes : ∀ b ∈ pk, b < 256) (hlen4 : 4 ≤ pk.length)
    (hnoov : 4 + n * size < 2 ^ 64) :
    (n < 2 → ∀ pkF vkF, loadTrustedSetupBytes pkF vkF n size
        = LoadRes.err LoadErr.needAtLeastTwo)
    ∧ (2 ≤ n → (beUint32 pk < n ∨ pk.length < 4 + n * size) →
        loadTrustedSetupBytes (some pk) (some vkB) n size
          = LoadRes.err LoadErr.insufficient)
    ∧ (2 ≤ n → n ≤ beUint32 pk → 4 + n * size ≤ pk.length →
        loadTrustedSetupBytes (some pk) (some vkB) n size
          = LoadRes.ok (natToBE 4 n ++ (pk.take (4 + n * size)).drop 4) vkB
        ∧ (natToBE 4 n ++ (pk.take (4 + n * size)).drop 4).length = 4 + n * size
        ∧ (natToBE 4 n ++ (pk.take (4 + n * size)).drop 4).take 4 = natToBE 4 n) := by
  have hmod : (4 + n * size) % 2 ^ 64 = 4 + n * size := Nat.mod_eq_of_lt hnoov
  refine ⟨?_, ?_, ?_⟩
  · intro hn pkF vkF
    simp only [loadTrustedSetupBytes]
    rw [if_pos hn]
  · intro hn hbad
    simp only [loadTrustedSetupBytes]
    rw [if_neg (by omega), if_neg (by omega), hmod, if_pos (by omega)]
  · intro hn hdecl hfits
    have hn32 : n < 2 ^ 32 := by
      have hdlt : beUint32 pk < 2 ^ 32 := by
        have h1 : beToNat (pk.take 4) < 256 ^ (pk.take 4).length := by
          apply beToNat_lt
          intro b hbmem
          exact hbytes b (List.mem_of_mem_take hbmem)
        have h2 : (pk.take 4).length ≤ 4 := by
          rw [List.length_take]
          omega
        have h3 : (256 : Nat) ^ (pk.take 4).length ≤ 256 ^ 4 :=
          Nat.pow_le_pow_right (by norm_num) h2
        have h4 : (256 : Nat) ^ 4 = 2 ^ 32 := by norm_num
        unfold beUint32
        omega
      omega
    have hmod32 : n % 2 ^ 32 = n := Nat.mod_eq_of_lt hn32
    have heq : loadTrustedSetupBytes (some pk) (some vkB) n size
        = LoadRes.ok (natToBE 4 n ++ (pk.take (4 + n * size)).drop 4) vkB := by
      simp only [loadTrustedSetupBytes]
      rw [if_neg (by omega), if_neg (by omega), hmod, if_neg (by omega), hmod32]
    have hlen : (natToBE 4 n ++ (pk.take (4 + n * size)).drop 4).length
        = 4 + n * size := by
      rw [List.length_append, natToBE_length, List.length_drop, List.length_take]
      omega
    have htake : (natToBE 4 n ++ (pk.take (4 + n * size)).drop 4).take 4 = natToBE 4 n := by
      have h4 : (natToBE 4 n).length = 4 := natToBE_length 4 n
      rw [← h4]
      exact List.take_left _ _
    exact ⟨heq, hlen, htake⟩

/-- Witness for C8: a 14-byte blob declaring 5 elements of size 2,
sliced to 3 elements. -/
theorem loadTrustedSetup_spec_witness :
    ((∀ b ∈ natToBE 4 5 ++ List.replicate 10 7, b < 256)
      ∧ 4 ≤ (natToBE 4 5 ++ List.replicate 10 7 : Bytes).length
      ∧ 4 + 3 * 2 < 2 ^ 64 ∧ 2 ≤ 3
      ∧ 3 ≤ beUint32 (natToBE 4 5 ++ List.replicate 10 7)
      ∧ 4 + 3 * 2 ≤ (natToBE 4 5 ++ List.replicate 10 7 : Bytes).length)
    ∧ loadTrustedSetupBytes (some (natToBE 4 5 ++ List.replicate 10 7)) (some []) 3 2
        = LoadRes.ok
          (natToBE 4 3 ++ (((natToBE 4 5 ++ List.replicate 10 7 : Bytes).take (4 + 3 * 2)).drop 4)) [] :=
  ⟨⟨by decide, by decide, by decide, by decide, by decide, by decide⟩,
    ((loadTrustedSetup_spec (natToBE 4 5 ++ List.replicate 10 7) [] 3 2
      (by decide) (by decide) (by decide)).2.2 (by decide) (by decide) (by decide)).1⟩

/-- The embedded setup storage: the contents of the two embedded files of
a setup directory. `embed.FS` data is immutable; `ReadFile` hands out a
fresh copy of a file's bytes. -/
structure EmbeddedSetupFiles where
  pkBin : Option Bytes
  vkBin : Option Bytes
deriving DecidableEq

/-- `loadTrustedSetupBytes` as a state transformer over the embedded
storage: `ReadFile` returns a fresh copy of each embedded blob, so the
header overwrite and the truncation act on the per-call copy and the
storage passes through unchanged. -/
def loadTrustedSetupBytesW (w : EmbeddedSetupFiles) (n size : Nat) :
    EmbeddedSetupFiles × LoadRes :=
  (w, loadTrustedSetupBytes w.pkBin w.vkBin n size)

/-- A sequence of loads against the embedded storage, collecting the
results. -/
def runLoads (w : EmbeddedSetupFiles) : List (Nat × Nat) → EmbeddedSetupFiles × List LoadRes
  | [] => (w, [])
  | c :: rest =>
    let s := loadTrustedSetupBytesW w c.1 c.2
    let r := runLoads s.1 rest
    (r.1, s.2 :: r.2)

/-- C9. Loading setup parameters never mutates the underlying embedded
static storage: for every sequence of load calls, the embedded data seen
by any later read is the original data (the in-place header overwrite
touches only the per-call copy). -/
theorem loads_preserve_storage :
    ∀ (calls : List (Nat × Nat)) (w : EmbeddedSetupFiles),
      (runLoads w calls).1 = w
      ∧ (runLoads w calls).1.pkBin = w.pkBin
      ∧ (runLoads w calls).1.vkBin = w.vkBin := by
  intro calls
  induction calls with
  | nil => intro w; exact ⟨rfl, rfl, rfl⟩
  | cons c rest ih =>
    intro w
    have h := ih w
    simp only [runLoads, loadTrustedSetupBytesW]
    exact h

/-! ## The `Compile` facade (`algoplonk.go` lines 179–197, claim C10) -/

/-- The curve identifiers relevant to `Compile` (`ecc.ID`). -/
inductive EccId where
  | bn254 : EccId
  | bls12381 : EccId
  | other : EccId
deriving DecidableEq

/-- The named setup configurations of `setup/setup.go`. -/
inductive SetupName where
  | perpetualPowersOfTauBN254 : SetupName
  | ethereumKzgCeremonyBLS12381 : SetupName
  | duskBLS12381 : SetupName
  | testOnlyBN254 : SetupName
  | testOnlyBLS12381 : SetupName
deriving DecidableEq

/-- An entry of the `Setups` map: the curve the setup binds and whether
it is a trusted setup. -/
structure SetupInfo where
  curve : EccId
  trusted : Bool
deriving DecidableEq

/-- The `Setups` map of `setup/setup.go`. -/
def setups : SetupName → SetupInfo
  | SetupName.perpetualPowersOfTauBN254 => ⟨EccId.bn254, true⟩
  | SetupName.ethereumKzgCeremonyBLS12381 => ⟨EccId.bls12381, true⟩
  | SetupName.duskBLS12381 => ⟨EccId.bls12381, true⟩
  | SetupName.testOnlyBN254 => ⟨EccId.bn254, false⟩
  | SetupName.testOnlyBLS12381 => ⟨EccId.bls12381, false⟩

/-- The errors `Compile` can surface. -/
inductive CompileErr where
  | unsupportedCurve : CompileErr
  | setupCurveMismatch : CompileErr
  | circuitCompileError : CompileErr
  | setupError : CompileErr
deriving DecidableEq

/-- The value `Compile` returns on success. -/
structure CompiledCircuit (Ccs Pk Vk : Type) where
  ccs : Ccs
  pk : Pk
  vk : Vk
  curve : EccId

/-- `Compile` (algoplonk.go lines 179–197): reject unsupported curves,
reject a setup whose curve differs from the requested curve, then call
the external circuit compiler (`frontend.Compile`) and the setup
(`setup.Run`) — both modelled as oracles — and bundle the results. -/
def compile {C Ccs Pk Vk : Type}
    (frontendCompile : C → EccId → Except Unit Ccs)
    (setupRun : Ccs → SetupName → Except Unit (Pk × Vk))
    (circuit : C) (curve : EccId) (setupConfig : SetupName) :
    Except CompileErr (CompiledCircuit Ccs Pk Vk) :=
  if curve ≠ EccId.bn254 ∧ curve ≠ EccId.bls12381 then
    Except.error CompileErr.unsupportedCurve
  else if curve ≠ (setups setupConfig).curve then
    Except.error CompileErr.setupCurveMismatch
  else
    match frontendCompile circuit curve with
    | Except.error _ => Except.error CompileErr.circuitCompileError
    | Except.ok ccs =>
      match setupRun ccs setupConfig with
      | Except.error _ => Except.error CompileErr.setupError
      | Except.ok pkvk => Except.ok ⟨ccs, pkvk.1, pkvk.2, curve⟩

/-- C10. For every circuit, supported curve and named setup
configuration, `Compile` returns the curve-mismatch error when the chosen
setup's curve differs from the requested curve — for every circuit
compiler and setup oracle, i.e. before compiling the circuit or running
any setup — and when the curves match, compilation proceeds through the
circuit compiler and setup and bundles their results. -/
theorem compile_checks_setup_curve {C Ccs Pk Vk : Type}
    (circuit : C) (curve : EccId) (setupConfig : SetupName)
    (hsupp : curve = EccId.bn254 ∨ curve = EccId.bls12381) :
    (curve ≠ (setups setupConfig).curve →
      ∀ (fc : C → EccId → Except Unit Ccs)
        (sr : Ccs → SetupName → Except Unit (Pk × Vk)),
        compile fc sr circuit curve setupConfig
          = Except.error CompileErr.setupCurveMismatch)
    ∧ (curve = (setups setupConfig).curve →
      ∀ (fc : C → EccId → Except Unit Ccs)
        (sr : Ccs → SetupName → Except Unit (Pk × Vk))
        (ccs : Ccs) (pk : Pk) (vk : Vk),
        fc circuit curve = Except.ok ccs →
        sr ccs setupConfig = Except.ok (pk, vk) →
        compile fc sr circuit curve setupConfig
          = Except.ok ⟨ccs, pk, vk, curve⟩) := by
  have hnot : ¬ (curve ≠ EccId.bn254 ∧ curve ≠ EccId.bls12381) := by
    rcases hsupp with h | h
    · intro hc; exact hc.1 h
    · intro hc; exact hc.2 h
  constructor
  · intro hmis fc sr
    simp only [compile]
    rw [if_neg hnot, if_pos hmis]
  · intro hmatch fc sr ccs pk vk hfc hsr
    simp only [compile]
    rw [if_neg hnot, if_neg (fun hc => hc hmatch), hfc]
    simp only [hsr]

/-- Witness for C10: requesting BLS12-381 against the BN254 trusted
setup fails with the mismatch error; requesting it against the BLS12-381
test setup proceeds through the oracles. -/
theorem compile_checks_setup_curve_witness :
    (EccId.bls12381 = EccId.bn254 ∨ EccId.bls12381 = EccId.bls12381)
    ∧ compile (fun (_ : Nat) (_ : EccId) => Except.ok (0 : Nat))
        (fun (_ : Nat) (_ : SetupName) => Except.ok ((0 : Nat), (0 : Nat)))
        0 EccId.bls12381 SetupName.perpetualPowersOfTauBN254
        = Except.error CompileErr.setupCurveMismatch
    ∧ compile (fun (_ : Nat) (_ : EccId) => Except.ok (0 : Nat))
        (fun (_ : Nat) (_ : SetupName) => Except.ok ((0 : Nat), (0 : Nat)))
        0 EccId.bls12381 SetupName.testOnlyBLS12381
        = Except.ok ⟨0, 0, 0, EccId.bls12381⟩ :=
  ⟨Or.inr rfl,
    (compile_checks_setup_curve 0 EccId.bls12381 SetupName.perpetualPowersOfTauBN254
      (Or.inr rfl)).1 (by decide) _ _,
    (compile_checks_setup_curve 0 EccId.bls12381 SetupName.testOnlyBLS12381
      (Or.inr rfl)).2 (by decide) _ _ 0 0 0 rfl rfl⟩

end AlgoPlonk
